import Mathlib

/-!
Verification of the screen-extraction detection core of `extract_screens.py`.

The detection core is shallowly embedded: a pixel buffer is a function from
row/column indices to rational brightness values, and every numeric step of
the source (`np.mean`, `np.std`, the gap mask, `uniform_filter1d` smoothing,
transition extraction, aspect-ratio partitioning, wide-screen splitting and
final padding) is translated into an executable Lean definition.  Standard
deviation thresholds are embedded at the variance level (`std < 5` becomes
`var < 25`, `std > 5` becomes `var > 25`), which is equivalent since both
sides are nonnegative.  Python's `//` is embedded as `Int.ediv` (`/` on `ℤ`),
`int(...)` on a nonnegative real as truncation (`pyInt`), `np.ceil` as `⌈·⌉`
and `np.round` as round-half-to-even.  The aspect ratios `9/19.5, 9/16,
10/16, 3/4` are modelled as the exact rationals `6/13, 9/16, 5/8, 3/4`.
-/

set_option maxRecDepth 4000

namespace ExtractScreens

/-- A pixel buffer: a grayscale image with `h` rows and `w` columns of
brightness samples.  Pixel values are modelled as exact rationals. -/
structure Img where
  h : ℕ
  w : ℕ
  pix : ℕ → ℕ → ℚ

/-- A screen span `(x1, y1, x2, y2)` in pixel coordinates. -/
structure Span where
  x1 : ℤ
  y1 : ℤ
  x2 : ℤ
  y2 : ℤ
deriving DecidableEq, Repr

/-- Python `int(...)` applied to a real value: truncation toward zero. -/
def pyInt (q : ℚ) : ℤ := if 0 ≤ q then ⌊q⌋ else ⌈q⌉

/-- `np.round`: round half to even. -/
def npRound (q : ℚ) : ℤ :=
  if q - ⌊q⌋ < 1/2 then ⌊q⌋
  else if (1 : ℚ)/2 < q - ⌊q⌋ then ⌊q⌋ + 1
  else if ⌊q⌋ % 2 = 0 then ⌊q⌋ else ⌊q⌋ + 1

/-- Mean of column `c` over all rows (`np.mean(gray, axis=0)`). -/
def colMean (img : Img) (c : ℕ) : ℚ := (∑ r in Finset.range img.h, img.pix r c) / img.h

/-- Mean of the squares of column `c` over all rows. -/
def colSqMean (img : Img) (c : ℕ) : ℚ := (∑ r in Finset.range img.h, img.pix r c ^ 2) / img.h

/-- Population variance of column `c` (the square of `np.std(gray, axis=0)`). -/
def colVar (img : Img) (c : ℕ) : ℚ := colSqMean img c - colMean img c ^ 2

/-- `is_gap`: `column_std < 5 or column_mean > 240 or column_mean < 15`,
with the standard-deviation comparison embedded as `var < 25`. -/
def isGapCol (img : Img) (c : ℕ) : Bool :=
  decide (colVar img c < 25) || decide (240 < colMean img c) || decide (colMean img c < 15)

/-- Index reflection used by `scipy.ndimage.uniform_filter1d` boundary mode
`reflect` (pattern `(d c b a | a b c d | d c b a)`). -/
def reflectIdx (n : ℕ) (j : ℤ) : ℕ :=
  if j < 0 then (-j - 1).toNat
  else if (n : ℤ) ≤ j then (2 * n - 1 - j).toNat
  else j.toNat

/-- The 0/1 value of the raw gap indicator (`is_gap.astype(float)`). -/
def gapVal (img : Img) (c : ℕ) : ℚ := if isGapCol img c then 1 else 0

/-- `uniform_filter1d(is_gap.astype(float), size=10) > 0.8` at column `c`:
centered moving average over the window `[c-5, c+4]` with reflected borders. -/
def smoothedAt (img : Img) (c : ℕ) : Bool :=
  decide ((4 : ℚ)/5 <
    (∑ k in Finset.range 10, gapVal img (reflectIdx img.w ((c : ℤ) - 5 + k))) / 10)

/-- `screen_starts = np.where(np.diff(is_gap_smoothed.astype(int)) == -1)[0] + 1`. -/
def startsRaw (img : Img) : List ℤ :=
  ((List.range (img.w - 1)).filter fun j => smoothedAt img j && !smoothedAt img (j + 1)).map
    fun (j : ℕ) => (j : ℤ) + 1

/-- `screen_ends = np.where(np.diff(is_gap_smoothed.astype(int)) == 1)[0]`. -/
def endsRaw (img : Img) : List ℤ :=
  ((List.range (img.w - 1)).filter fun j => !smoothedAt img j && smoothedAt img (j + 1)).map
    fun (j : ℕ) => (j : ℤ)

/-- Edge handling for starts (lines 66-69 of the source). -/
def screenStarts (img : Img) : List ℤ :=
  if smoothedAt img 0 = false ∧ startsRaw img ≠ [] then 0 :: startsRaw img
  else if smoothedAt img 0 = false ∧ startsRaw img = [] then [0]
  else startsRaw img

/-- Edge handling for ends (lines 71-74 of the source). -/
def screenEnds (img : Img) : List ℤ :=
  if smoothedAt img (img.w - 1) = false ∧ endsRaw img ≠ [] then endsRaw img ++ [(img.w : ℤ) - 1]
  else if smoothedAt img (img.w - 1) = false ∧ endsRaw img = [] then [(img.w : ℤ) - 1]
  else endsRaw img

/-- Mean of row `r` over columns `a ≤ c < b` (`np.mean(screen_region, axis=1)`). -/
def rowMean (img : Img) (a b : ℤ) (r : ℕ) : ℚ :=
  (∑ c in Finset.Ico a.toNat b.toNat, img.pix r c) / ((b - a : ℤ) : ℚ)

/-- Mean of squares of row `r` over columns `a ≤ c < b`. -/
def rowSqMean (img : Img) (a b : ℤ) (r : ℕ) : ℚ :=
  (∑ c in Finset.Ico a.toNat b.toNat, img.pix r c ^ 2) / ((b - a : ℤ) : ℚ)

/-- Population variance of row `r` over columns `a ≤ c < b`. -/
def rowVar (img : Img) (a b : ℤ) (r : ℕ) : ℚ := rowSqMean img a b r - rowMean img a b r ^ 2

/-- `content_rows = np.where(row_std > 5)[0]`, with `std > 5` embedded as `var > 25`. -/
def contentRows (img : Img) (a b : ℤ) : Finset ℕ :=
  (Finset.range img.h).filter fun r => 25 < rowVar img a b r

/-- `zip(screen_starts, screen_ends)`. -/
def detectPairs (img : Img) : List (ℤ × ℤ) := (screenStarts img).zip (screenEnds img)

/-- Body of the pairing loop (lines 78-92): width guard, then vertical trim
to the content extent; `none` when the pair is discarded. -/
def pairSpan (img : Img) (minW : ℤ) (p : ℤ × ℤ) : Option Span :=
  if minW ≤ p.2 - p.1 then
    if h : (contentRows img p.1 p.2).Nonempty then
      some ⟨p.1, max 0 (((contentRows img p.1 p.2).min' h : ℤ) - 2), p.2,
        min ((img.h : ℤ) - 1) (((contentRows img p.1 p.2).max' h : ℤ) + 2)⟩
    else none
  else none

/-- The `screens` list built by the pairing loop of `detect_screen_boundaries`. -/
def detectScreens (img : Img) (minW : ℤ) : List Span :=
  (detectPairs img).filterMap (pairSpan img minW)

/-- Aspect ratios of `detect_screens_by_aspect_ratio`: `[9/19.5, 9/16, 10/16, 3/4]`. -/
def ratios4 : List ℚ := [6/13, 9/16, 5/8, 3/4]

/-- The slice loop of `detect_screens_by_aspect_ratio` for one estimated width. -/
def aspectSlices (hgt wid minW ew : ℤ) : List Span :=
  (List.range (wid / ew).toNat).filterMap fun (i : ℕ) =>
    if minW ≤ (min (((i : ℤ) + 1) * ew) wid - (if (i : ℤ) < wid / ew - 1 then 10 else 0)) -
        ((i : ℤ) * ew + (if 0 < (i : ℤ) then 10 else 0)) then
      some ⟨(i : ℤ) * ew + (if 0 < (i : ℤ) then 10 else 0), 0,
        min (((i : ℤ) + 1) * ew) wid - (if (i : ℤ) < wid / ew - 1 then 10 else 0), hgt - 1⟩
    else none

/-- The ratio loop of `detect_screens_by_aspect_ratio` (with its
`if len(screens) > 0: break`). -/
def aspectLoop (hgt wid minW : ℤ) : List ℚ → List Span
  | [] => []
  | r :: rest =>
    if minW ≤ pyInt ((hgt : ℚ) * r) ∧ 2 ≤ wid / pyInt ((hgt : ℚ) * r) then
      if aspectSlices hgt wid minW (pyInt ((hgt : ℚ) * r)) = [] then
        aspectLoop hgt wid minW rest
      else aspectSlices hgt wid minW (pyInt ((hgt : ℚ) * r))
    else aspectLoop hgt wid minW rest

/-- `detect_screens_by_aspect_ratio` (it reads only the shape of the array). -/
def aspect (hgt wid minW : ℤ) : List Span :=
  if aspectLoop hgt wid minW ratios4 = [] then [⟨0, 0, wid - 1, hgt - 1⟩]
  else aspectLoop hgt wid minW ratios4

/-- `detect_screen_boundaries` (lines 11-98; the check on line 62 uses the raw
transition lists, before edge handling). -/
def detect (img : Img) (minW : ℤ) : List Span :=
  if startsRaw img = [] ∧ endsRaw img = [] then aspect img.h img.w minW
  else if detectScreens img minW = [] then aspect img.h img.w minW
  else detectScreens img minW

/-- The sub-array `img_array[y1:y2, x1:x2]`. -/
def subImg (img : Img) (sb : Span) : Img :=
  ⟨(sb.y2 - sb.y1).toNat, (sb.x2 - sb.x1).toNat,
    fun r c => img.pix (r + sb.y1.toNat) (c + sb.x1.toNat)⟩

/-- Left edge of even-partition slice `i` of `split_wide_screen`:
`x1 + int(i * width / num)` plus the interior shrink. -/
def sliceL (sb : Span) (n pad : ℤ) (i : ℕ) : ℤ :=
  sb.x1 + pyInt ((((i : ℤ) * (sb.x2 - sb.x1) : ℤ) : ℚ) / ((n : ℤ) : ℚ)) +
    (if 0 < (i : ℤ) then pad else 0)

/-- Right edge of even-partition slice `i`. -/
def sliceR (sb : Span) (n pad : ℤ) (i : ℕ) : ℤ :=
  sb.x1 + pyInt (((((i : ℤ) + 1) * (sb.x2 - sb.x1) : ℤ) : ℚ) / ((n : ℤ) : ℚ)) -
    (if (i : ℤ) < n - 1 then pad else 0)

/-- The even-partition slice loop of `split_wide_screen`, shared by the
force-split branch (`pad = 8`) and the ratio fallback branch (`pad = 5`):
slice `i` runs from `x1 + int(i*width/num)` to `x1 + int((i+1)*width/num)`
with interior edges shrunk by `pad`, kept when at least `300` wide. -/
def evenSlices (sb : Span) (n pad : ℤ) : List Span :=
  (List.range n.toNat).filterMap fun i =>
    if 300 ≤ sliceR sb n pad i - sliceL sb n pad i then
      some ⟨sliceL sb n pad i, sb.y1, sliceR sb n pad i, sb.y2⟩
    else none

/-- Slice loop of the force-split branch of `split_wide_screen` (8px shrink). -/
def forceSlices (sb : Span) (n : ℤ) : List Span := evenSlices sb n 8

/-- Slice loop of the ratio fallback branch of `split_wide_screen` (5px shrink). -/
def ratioSlices (sb : Span) (n : ℤ) : List Span := evenSlices sb n 5

/-- Ratios tried by the fallback of `split_wide_screen`: `[9/19.5, 9/16, 10/16]`. -/
def ratios3 : List ℚ := [6/13, 9/16, 5/8]

/-- `estimated_screen_width` for one ratio in the fallback of
`split_wide_screen`: `int(height * ratio)`, substituted to `380` if below 300. -/
def effW (hgt : ℤ) (r : ℚ) : ℤ :=
  if pyInt ((hgt : ℚ) * r) < 300 then 380 else pyInt ((hgt : ℚ) * r)

/-- `num_screens = int(np.ceil(width / estimated_screen_width))`. -/
def nOf (wid hgt : ℤ) (r : ℚ) : ℤ := ⌈(wid : ℚ) / ((effW hgt r : ℤ) : ℚ)⌉

/-- `avg_width = width / num_screens`. -/
def avgOf (wid hgt : ℤ) (r : ℚ) : ℚ := (wid : ℚ) / ((nOf wid hgt r : ℤ) : ℚ)

/-- `uniformity = abs(avg_width - estimated_screen_width)`. -/
def uOf (wid hgt : ℤ) (r : ℚ) : ℚ := |avgOf wid hgt r - ((effW hgt r : ℤ) : ℚ)|

/-- One iteration of the best-uniformity scan of `split_wide_screen`.  The
state is `(best_uniformity, best_split)`, with `none` for `float('inf')` and
for `best_split = None`; `best_uniformity` is updated whenever the guard
holds, while `best_split` is only replaced by a nonempty slice list. -/
def scanStep (sb : Span) (maxW : ℤ) (st : Option ℚ × Option (List Span)) (r : ℚ) :
    Option ℚ × Option (List Span) :=
  if ((match st.1 with
      | none => true
      | some bu => decide (uOf (sb.x2 - sb.x1) (sb.y2 - sb.y1) r < bu))
      && decide (300 ≤ avgOf (sb.x2 - sb.x1) (sb.y2 - sb.y1) r)
      && decide (avgOf (sb.x2 - sb.x1) (sb.y2 - sb.y1) r ≤ (maxW : ℚ) + 50)) = true then
    (some (uOf (sb.x2 - sb.x1) (sb.y2 - sb.y1) r),
      if ratioSlices sb (nOf (sb.x2 - sb.x1) (sb.y2 - sb.y1) r) = [] then st.2
      else some (ratioSlices sb (nOf (sb.x2 - sb.x1) (sb.y2 - sb.y1) r)))
  else st

/-- The aspect-ratio fallback of `split_wide_screen`:
`best_split if best_split else [screen_bounds]`. -/
def ratioFallback (sb : Span) (maxW : ℤ) : List Span :=
  ((ratios3.foldl (scanStep sb maxW) (none, none)).2).getD [sb]

/-- Recursive sub-detection of `split_wide_screen`: sub-spans translated to
absolute coordinates and filtered to widths in `[300, max_width]`. -/
def absoluteScreens (sb : Span) (img : Img) (maxW : ℤ) : List Span :=
  (detect (subImg img sb) 300).filterMap fun t =>
    if 300 ≤ t.x2 - t.x1 ∧ t.x2 - t.x1 ≤ maxW then
      some ⟨sb.x1 + t.x1, sb.y1 + t.y1, sb.x1 + t.x2, sb.y1 + t.y2⟩
    else none

/-- `split_wide_screen`. -/
def splitWide (sb : Span) (img : Img) (maxW : ℤ) : List Span :=
  if sb.x2 - sb.x1 ≤ maxW then [sb]
  else if 1000 < sb.x2 - sb.x1 then
    if forceSlices sb (max 2 (npRound (((sb.x2 - sb.x1 : ℤ) : ℚ) / 380))) = [] then [sb]
    else forceSlices sb (max 2 (npRound (((sb.x2 - sb.x1 : ℤ) : ℚ) / 380)))
  else if 2 ≤ (absoluteScreens sb img maxW).length then absoluteScreens sb img maxW
  else ratioFallback sb maxW

/-- The final span list built by `extract_screens_from_image` before padding:
spans wider than 450 are replaced by the output of `split_wide_screen`. -/
def finalScreens (img : Img) : List Span :=
  (detect img 300).flatMap fun s => if 450 < s.x2 - s.x1 then splitWide s img 450 else [s]

/-- The uniform 2px padding clamped to image bounds (lines 296-302). -/
def padSpan (wid hgt : ℤ) (s : Span) : Span :=
  ⟨max 0 (s.x1 - 2), max 0 (s.y1 - 2), min wid (s.x2 + 2), min hgt (s.y2 + 2)⟩

/-- The padded spans that `extract_screens_from_image` crops. -/
def paddedScreens (img : Img) : List Span :=
  (finalScreens img).map (padSpan img.w img.h)

/-- The estimated width of the first aspect ratio in `rs` that passes the two
guards of `detect_screens_by_aspect_ratio` (estimated width at least
`min_screen_width`, at least two screens). -/
def firstGuardEW (hgt wid minW : ℤ) : List ℚ → Option ℤ
  | [] => none
  | r :: rest =>
    if minW ≤ pyInt ((hgt : ℚ) * r) ∧ 2 ≤ wid / pyInt ((hgt : ℚ) * r) then
      some (pyInt ((hgt : ℚ) * r))
    else firstGuardEW hgt wid minW rest

/-- The estimated width of the first aspect ratio that passes both guards and
whose slice list survives the minimum-width filter; this is the estimated
width whose slices `detect_screens_by_aspect_ratio` actually returns. -/
def firstUsableEW (hgt wid minW : ℤ) : List ℚ → Option ℤ
  | [] => none
  | r :: rest =>
    if minW ≤ pyInt ((hgt : ℚ) * r) ∧ 2 ≤ wid / pyInt ((hgt : ℚ) * r) ∧
        aspectSlices hgt wid minW (pyInt ((hgt : ℚ) * r)) ≠ [] then
      some (pyInt ((hgt : ℚ) * r))
    else firstUsableEW hgt wid minW rest

/-- Modelled from the spec of the WideScreenSplitter ratio fallback: one step
of the scan keeping the first-seen qualifying ratio of smallest uniformity
(qualifying: average slice width in `[300, maxWidth + 50]`), regardless of
whether its partition survives the slice-width filter. -/
def specStep (wid hgt maxW : ℤ) (acc : Option (ℚ × ℤ)) (r : ℚ) : Option (ℚ × ℤ) :=
  if 300 ≤ avgOf wid hgt r ∧ avgOf wid hgt r ≤ (maxW : ℚ) + 50 then
    match acc with
    | none => some (uOf wid hgt r, nOf wid hgt r)
    | some (bu, _) =>
      if uOf wid hgt r < bu then some (uOf wid hgt r, nOf wid hgt r) else acc
  else acc

/-- Modelled from the spec: the qualifying ratio of smallest uniformity score
(first seen wins exact ties), as `(uniformity, num_screens)`. -/
def specBest (sb : Span) (maxW : ℤ) : Option (ℚ × ℤ) :=
  ratios3.foldl (specStep (sb.x2 - sb.x1) (sb.y2 - sb.y1) maxW) none

/-- Modelled from the spec: the partition generated by the selected ratio, or
the original span unchanged when no ratio qualifies or the selected ratio's
partition yields no slice of width at least 300. -/
def ratioFallbackSpec (sb : Span) (maxW : ℤ) : List Span :=
  match specBest sb maxW with
  | none => [sb]
  | some (_, n) => if ratioSlices sb n = [] then [sb] else ratioSlices sb n

/-- State-passing form of `detect_screen_boundaries`: the pixel buffer is the
mutable state; the body reads it through the column, smoothing and row
statistics (all computed into fresh values) and never assigns into it, so the
buffer state is returned unchanged alongside the result. -/
def detectRun (img : Img) (minW : ℤ) : List Span × Img :=
  ((if startsRaw img = [] ∧ endsRaw img = [] then aspect img.h img.w minW
    else if detectScreens img minW = [] then aspect img.h img.w minW
    else detectScreens img minW), img)

/-- State-passing form of `detect_screens_by_aspect_ratio` (reads only the
shape of the buffer). -/
def aspectRun (img : Img) (minW : ℤ) : List Span × Img :=
  (aspect img.h img.w minW, img)

/-- State-passing form of `split_wide_screen` (its recursive call reads the
buffer through the `img_array[y1:y2, x1:x2]` view, a non-mutating read). -/
def splitWideRun (sb : Span) (img : Img) (maxW : ℤ) : List Span × Img :=
  (splitWide sb img maxW, img)

/-!  ### Basic nonemptiness facts  -/

theorem aspect_ne_nil (hgt wid minW : ℤ) : aspect hgt wid minW ≠ [] := by
  unfold aspect
  split
  · simp
  · assumption

theorem detect_ne_nil (img : Img) (minW : ℤ) : detect img minW ≠ [] := by
  unfold detect
  split
  · exact aspect_ne_nil _ _ _
  · split
    · exact aspect_ne_nil _ _ _
    · assumption

/-- Soundness of the best-uniformity scan: any list reachable in the
`best_split` component either was there initially or is a nonempty qualifying
slice list. -/
theorem foldl_scan_snd (sb : Span) (maxW : ℤ) (P : List Span → Prop) :
    ∀ (rs : List ℚ) (st : Option ℚ × Option (List Span)),
      (∀ r ∈ rs,
        (300 ≤ avgOf (sb.x2 - sb.x1) (sb.y2 - sb.y1) r ∧
          avgOf (sb.x2 - sb.x1) (sb.y2 - sb.y1) r ≤ (maxW : ℚ) + 50) →
        ratioSlices sb (nOf (sb.x2 - sb.x1) (sb.y2 - sb.y1) r) ≠ [] →
        P (ratioSlices sb (nOf (sb.x2 - sb.x1) (sb.y2 - sb.y1) r))) →
      (∀ l, st.2 = some l → P l) →
      ∀ l, (rs.foldl (scanStep sb maxW) st).2 = some l → P l := by
  intro rs
  induction rs with
  | nil => intro st _ hst l hl; exact hst l hl
  | cons r rest ih =>
    intro st hrs hst l hl
    rw [List.foldl_cons] at hl
    refine ih (scanStep sb maxW st r) (fun r' hr' h1 h2 => hrs r' (List.mem_cons_of_mem _ hr') h1 h2) ?_ l hl
    intro l' hl'
    unfold scanStep at hl'
    split at hl'
    · next hguard =>
      dsimp only at hl'
      split at hl'
      · exact hst l' hl'
      · next hsl =>
        have hq : (300 ≤ avgOf (sb.x2 - sb.x1) (sb.y2 - sb.y1) r ∧
            avgOf (sb.x2 - sb.x1) (sb.y2 - sb.y1) r ≤ (maxW : ℚ) + 50) := by
          simp only [Bool.and_eq_true, decide_eq_true_eq] at hguard
          exact ⟨hguard.1.2, hguard.2⟩
        have hP := hrs r (List.mem_cons_self r rest) hq hsl
        rw [Option.some_inj] at hl'
        rwa [← hl']
    · exact hst l' hl'

theorem ratioFallback_ne_nil (sb : Span) (maxW : ℤ) : ratioFallback sb maxW ≠ [] := by
  unfold ratioFallback
  rcases h : (ratios3.foldl (scanStep sb maxW) (none, none)).2 with _ | l
  · simp
  · have := foldl_scan_snd sb maxW (fun l => l ≠ []) ratios3 (none, none)
      (fun r _ _ hne => hne) (by simp) l h
    simpa using this

theorem splitWide_ne_nil (sb : Span) (img : Img) (maxW : ℤ) :
    splitWide sb img maxW ≠ [] := by
  unfold splitWide
  split
  · simp
  · split
    · split
      · simp
      · assumption
    · split
      · next hlen =>
        intro hc
        rw [hc] at hlen
        simp at hlen
      · exact ratioFallback_ne_nil _ _

theorem finalScreens_ne_nil (img : Img) : finalScreens img ≠ [] := by
  unfold finalScreens
  intro h
  rcases hd : detect img 300 with _ | ⟨s, rest⟩
  · exact detect_ne_nil img 300 hd
  · rw [hd, List.flatMap_cons] at h
    rcases List.append_eq_nil.mp h with ⟨h1, _⟩
    split at h1
    · exact splitWide_ne_nil _ _ _ h1
    · simp at h1
/-!  ### Claims C3, C8, C9  -/

/-- C3: for every input pixel buffer with positive width and height, each of
`detect_screen_boundaries`, `detect_screens_by_aspect_ratio` and
`split_wide_screen` returns a non-empty list of spans (terminating at the
whole image as one span when all heuristics fail), so the full pipeline
always outputs at least one span. -/
theorem c3_nonempty (img : Img) (hh : 0 < img.h) (hw : 0 < img.w) :
    detect img 300 ≠ [] ∧ aspect img.h img.w 300 ≠ [] ∧
    (∀ sb : Span, splitWide sb img 450 ≠ []) ∧ finalScreens img ≠ [] :=
  ⟨detect_ne_nil img 300, aspect_ne_nil _ _ _,
    fun sb => splitWide_ne_nil sb img 450, finalScreens_ne_nil img⟩

/-- Witness for C3 at a concrete 1-by-1 buffer. -/
theorem c3_witness :
    0 < (Img.mk 1 1 fun _ _ => 0).h ∧ 0 < (Img.mk 1 1 fun _ _ => 0).w ∧
    finalScreens (Img.mk 1 1 fun _ _ => 0) ≠ [] :=
  ⟨Nat.one_pos, Nat.one_pos,
    (c3_nonempty (Img.mk 1 1 fun _ _ => 0) Nat.one_pos Nat.one_pos).2.2.2⟩

/-- C8: the detection core is a deterministic pure function of the pixel
buffer and its parameters: two runs on equal inputs return equal span lists. -/
theorem c8_deterministic (img img' : Img) (minW : ℤ) (h : img = img') :
    detect img minW = detect img' minW ∧ finalScreens img = finalScreens img' ∧
    paddedScreens img = paddedScreens img' := by
  subst h
  exact ⟨rfl, rfl, rfl⟩

/-- Witness for C8 at a concrete 1-by-1 buffer. -/
theorem c8_witness :
    (Img.mk 1 1 fun _ _ => 0) = (Img.mk 1 1 fun _ _ => 0) ∧
    paddedScreens (Img.mk 1 1 fun _ _ => 0) = paddedScreens (Img.mk 1 1 fun _ _ => 0) :=
  ⟨rfl, (c8_deterministic (Img.mk 1 1 fun _ _ => 0) (Img.mk 1 1 fun _ _ => 0) 300 rfl).2.2⟩

/-- C9: none of the three detection functions mutates the input pixel buffer:
in state-passing form each returns the buffer unchanged while computing the
same spans as the pure definitions; all derived data (column statistics, gap
mask, row statistics) are fresh values. -/
theorem c9_no_mutation (img : Img) (sb : Span) (minW maxW : ℤ) :
    (detectRun img minW).2 = img ∧ (detectRun img minW).1 = detect img minW ∧
    (aspectRun img minW).2 = img ∧ (aspectRun img minW).1 = aspect img.h img.w minW ∧
    (splitWideRun sb img maxW).2 = img ∧ (splitWideRun sb img maxW).1 = splitWide sb img maxW :=
  ⟨rfl, rfl, rfl, rfl, rfl, rfl⟩

/-!  ### Arithmetic helper lemmas  -/

theorem pyInt_eq_floor {q : ℚ} (h : 0 ≤ q) : pyInt q = ⌊q⌋ := if_pos h

theorem pyInt_intCast (z : ℤ) : pyInt (z : ℚ) = z := by
  unfold pyInt
  split <;> simp

theorem floor_add_ceil (a b : ℚ) : ⌊a + b⌋ ≤ ⌊a⌋ + ⌈b⌉ := by
  have h1 : a < (⌊a⌋ : ℚ) + 1 := Int.lt_floor_add_one a
  have h2 : b ≤ (⌈b⌉ : ℚ) := Int.le_ceil b
  have h3 : a + b < ((⌊a⌋ + ⌈b⌉ + 1 : ℤ) : ℚ) := by push_cast; linarith
  have h4 := Int.floor_lt.mpr h3
  omega

theorem npRound_ge (q : ℚ) : q - 1/2 ≤ (npRound q : ℚ) := by
  unfold npRound
  have h1 : (⌊q⌋ : ℚ) ≤ q := Int.floor_le q
  have h2 : q < (⌊q⌋ : ℚ) + 1 := Int.lt_floor_add_one q
  split
  · next h => linarith
  · split
    · push_cast; linarith
    · split <;> · push_cast; linarith

theorem npRound_two_le {q : ℚ} (h : (5 : ℚ)/2 ≤ q) : 2 ≤ npRound q := by
  have h1 := npRound_ge q
  have h2 : (2 : ℚ) ≤ (npRound q : ℚ) := by linarith
  exact_mod_cast h2

/-!  ### Geometric well-formedness  -/

/-- Geometric well-formedness of a span inside a `wid`-by-`hgt` image: it
lies inside the image, is weakly ordered, and the 2px padding clamped to
image bounds will make it strictly ordered. -/
def okSpan (wid hgt : ℤ) (s : Span) : Prop :=
  0 ≤ s.x1 ∧ s.x1 ≤ s.x2 ∧ s.x2 ≤ wid ∧ 0 ≤ s.y1 ∧ s.y1 ≤ s.y2 ∧ s.y2 ≤ hgt ∧
  (s.x1 < s.x2 ∨ s.x2 < wid) ∧ (s.y1 < s.y2 ∨ s.y2 < hgt)

theorem aspectSlices_mem_y {hgt wid minW ew : ℤ} {s : Span}
    (hs : s ∈ aspectSlices hgt wid minW ew) :
    s.y1 = 0 ∧ s.y2 = hgt - 1 ∧ minW ≤ s.x2 - s.x1 := by
  rcases List.mem_filterMap.mp hs with ⟨i, _, hsome⟩
  simp only [Option.ite_none_right_eq_some, Option.some.injEq] at hsome
  obtain ⟨hcond, rfl⟩ := hsome
  exact ⟨rfl, rfl, hcond⟩

theorem aspectSlices_mem_x {hgt wid minW ew : ℤ} {s : Span} (hew : 0 ≤ ew)
    (hs : s ∈ aspectSlices hgt wid minW ew) :
    0 ≤ s.x1 ∧ s.x2 ≤ wid := by
  rcases List.mem_filterMap.mp hs with ⟨i, _, hsome⟩
  simp only [Option.ite_none_right_eq_some, Option.some.injEq] at hsome
  obtain ⟨hcond, rfl⟩ := hsome
  have hiew : 0 ≤ (i : ℤ) * ew := mul_nonneg (Int.natCast_nonneg i) hew
  have hmin : min (((i : ℤ) + 1) * ew) wid ≤ wid := min_le_right _ _
  constructor
  · show 0 ≤ (i : ℤ) * ew + (if 0 < (i : ℤ) then 10 else 0)
    split <;> omega
  · show min (((i : ℤ) + 1) * ew) wid - (if (i : ℤ) < wid / ew - 1 then 10 else 0) ≤ wid
    split <;> omega

theorem aspectLoop_mem {hgt wid minW : ℤ} {s : Span} :
    ∀ {rs : List ℚ}, s ∈ aspectLoop hgt wid minW rs →
      ∃ ew : ℤ, minW ≤ ew ∧ s ∈ aspectSlices hgt wid minW ew := by
  intro rs
  induction rs with
  | nil => intro h; simp [aspectLoop] at h
  | cons r rest ih =>
    intro h
    rw [aspectLoop] at h
    split at h
    · next hcond =>
      split at h
      · exact ih h
      · exact ⟨pyInt ((hgt : ℚ) * r), hcond.1, h⟩
    · exact ih h

theorem aspect_cases {hgt wid minW : ℤ} {s : Span} (hs : s ∈ aspect hgt wid minW) :
    (∃ ew : ℤ, minW ≤ ew ∧ s ∈ aspectSlices hgt wid minW ew) ∨
      (s = ⟨0, 0, wid - 1, hgt - 1⟩ ∧ aspect hgt wid minW = [⟨0, 0, wid - 1, hgt - 1⟩]) := by
  unfold aspect at hs ⊢
  split at hs
  · next hnil =>
    right
    rw [List.mem_singleton] at hs
    exact ⟨hs, by rw [if_pos hnil]⟩
  · exact Or.inl (aspectLoop_mem hs)

/-- Every span `detect_screens_by_aspect_ratio` returns spans the full image
height as `y1 = 0`, `y2 = height - 1`. -/
theorem aspect_y {hgt wid minW : ℤ} {s : Span} (hs : s ∈ aspect hgt wid minW) :
    s.y1 = 0 ∧ s.y2 = hgt - 1 := by
  rcases aspect_cases hs with ⟨ew, _, hmem⟩ | ⟨rfl, _⟩
  · have h := aspectSlices_mem_y hmem
    exact ⟨h.1, h.2.1⟩
  · exact ⟨rfl, rfl⟩

theorem startsRaw_mem {img : Img} {x : ℤ} (hx : x ∈ startsRaw img) :
    1 ≤ x ∧ x ≤ (img.w : ℤ) - 1 := by
  unfold startsRaw at hx
  rcases List.mem_map.mp hx with ⟨j, hj, rfl⟩
  have hjr := List.mem_range.mp (List.mem_filter.mp hj).1
  omega

theorem endsRaw_mem {img : Img} {x : ℤ} (hx : x ∈ endsRaw img) :
    0 ≤ x ∧ x ≤ (img.w : ℤ) - 2 := by
  unfold endsRaw at hx
  rcases List.mem_map.mp hx with ⟨j, hj, rfl⟩
  have hjr := List.mem_range.mp (List.mem_filter.mp hj).1
  omega

theorem screenStarts_mem {img : Img} {x : ℤ} (hw : 0 < img.w) (hx : x ∈ screenStarts img) :
    0 ≤ x ∧ x ≤ (img.w : ℤ) - 1 := by
  unfold screenStarts at hx
  split at hx
  · rcases List.mem_cons.mp hx with rfl | hx'
    · omega
    · have := startsRaw_mem hx'
      omega
  · split at hx
    · rcases List.mem_singleton.mp hx with rfl
      omega
    · have := startsRaw_mem hx
      omega

theorem screenEnds_mem {img : Img} {x : ℤ} (hw : 0 < img.w) (hx : x ∈ screenEnds img) :
    0 ≤ x ∧ x ≤ (img.w : ℤ) - 1 := by
  unfold screenEnds at hx
  split at hx
  · rcases List.mem_append.mp hx with hx' | hx'
    · have := endsRaw_mem hx'
      omega
    · rcases List.mem_singleton.mp hx' with rfl
      omega
  · split at hx
    · rcases List.mem_singleton.mp hx with rfl
      omega
    · have := endsRaw_mem hx
      omega

theorem pairSpan_some {img : Img} {minW : ℤ} {p : ℤ × ℤ} {s : Span}
    (h : pairSpan img minW p = some s) :
    s.x1 = p.1 ∧ s.x2 = p.2 ∧ minW ≤ p.2 - p.1 ∧
    0 ≤ s.y1 ∧ s.y1 ≤ s.y2 ∧ s.y2 ≤ (img.h : ℤ) - 1 := by
  unfold pairSpan at h
  split at h
  · next hwidth =>
    split at h
    · next hne =>
      cases h
      have hmm : (contentRows img p.1 p.2).min' hne ≤ (contentRows img p.1 p.2).max' hne :=
        Finset.min'_le _ _ (Finset.max'_mem _ _)
      have hmax_lt : (contentRows img p.1 p.2).max' hne < img.h := by
        have := Finset.mem_filter.mp (Finset.max'_mem (contentRows img p.1 p.2) hne)
        exact Finset.mem_range.mp this.1
      refine ⟨rfl, rfl, hwidth, ?_, ?_, ?_⟩ <;> dsimp only <;> omega
    · exact absurd h (by simp)
  · exact absurd h (by simp)

theorem detectScreens_width {img : Img} {minW : ℤ} {s : Span}
    (hs : s ∈ detectScreens img minW) : minW ≤ s.x2 - s.x1 := by
  rcases List.mem_filterMap.mp hs with ⟨p, _, hsome⟩
  have hps := pairSpan_some hsome
  omega

theorem detectScreens_mem {img : Img} {minW : ℤ} {s : Span} (hw : 0 < img.w)
    (hs : s ∈ detectScreens img minW) :
    0 ≤ s.x1 ∧ minW ≤ s.x2 - s.x1 ∧ s.x2 ≤ (img.w : ℤ) - 1 ∧
    0 ≤ s.y1 ∧ s.y1 ≤ s.y2 ∧ s.y2 ≤ (img.h : ℤ) - 1 := by
  rcases List.mem_filterMap.mp hs with ⟨p, hp, hsome⟩
  rcases p with ⟨a, b⟩
  have hps := pairSpan_some hsome
  have hzip := List.of_mem_zip hp
  have ha := screenStarts_mem hw hzip.1
  have hb := screenEnds_mem hw hzip.2
  dsimp only at hps
  omega

theorem detect_cases {img : Img} {minW : ℤ} {s : Span} (hs : s ∈ detect img minW) :
    s ∈ detectScreens img minW ∨ s ∈ aspect img.h img.w minW := by
  unfold detect at hs
  split at hs
  · exact Or.inr hs
  · split at hs
    · exact Or.inr hs
    · exact Or.inl hs

theorem detect_min_width {img : Img} {s : Span} (hs : s ∈ detect img 300) :
    300 ≤ s.x2 - s.x1 ∨
      (s = ⟨0, 0, (img.w : ℤ) - 1, (img.h : ℤ) - 1⟩ ∧
        detect img 300 = [⟨0, 0, (img.w : ℤ) - 1, (img.h : ℤ) - 1⟩]) := by
  unfold detect at hs ⊢
  split at hs
  · next h1 =>
    rw [if_pos h1]
    rcases aspect_cases hs with ⟨_, _, hmem⟩ | ⟨hse, hasp⟩
    · exact Or.inl (aspectSlices_mem_y hmem).2.2
    · exact Or.inr ⟨hse, hasp⟩
  · next h1 =>
    rw [if_neg h1]
    split at hs
    · next h2 =>
      rw [if_pos h2]
      rcases aspect_cases hs with ⟨_, _, hmem⟩ | ⟨hse, hasp⟩
      · exact Or.inl (aspectSlices_mem_y hmem).2.2
      · exact Or.inr ⟨hse, hasp⟩
    · exact Or.inl (detectScreens_width hs)

theorem aspect_ok {hgt wid minW : ℤ} (hm : 0 < minW) (hw : 0 < wid) (hh : 0 < hgt) :
    ∀ s ∈ aspect hgt wid minW, okSpan wid hgt s := by
  intro s hs
  rcases aspect_cases hs with ⟨ew, hew, hmem⟩ | ⟨rfl, _⟩
  · obtain ⟨hy1, hy2, hwd⟩ := aspectSlices_mem_y hmem
    obtain ⟨hx1, hx2⟩ := aspectSlices_mem_x (by omega) hmem
    unfold okSpan
    omega
  · unfold okSpan
    dsimp only
    omega

theorem detect_ok {img : Img} {minW : ℤ} (hm : 0 < minW) (hw : 0 < img.w)
    (hh : 0 < img.h) : ∀ s ∈ detect img minW, okSpan (img.w : ℤ) (img.h : ℤ) s := by
  intro s hs
  rcases detect_cases hs with h | h
  · have := detectScreens_mem hw h
    unfold okSpan
    omega
  · exact aspect_ok hm (by omega) (by omega) s h

/-!  ### Even-partition slice arithmetic  -/

theorem part_le_ceil {W n : ℤ} (hW : 0 ≤ W) (hn : 0 < n) {k : ℤ} (hk : 0 ≤ k) :
    pyInt ((((k + 1) * W : ℤ) : ℚ) / ((n : ℤ) : ℚ)) -
      pyInt (((k * W : ℤ) : ℚ) / ((n : ℤ) : ℚ)) ≤ ⌈(W : ℚ) / ((n : ℤ) : ℚ)⌉ := by
  have hnq : (0 : ℚ) < (n : ℚ) := by exact_mod_cast hn
  have h1 : (0 : ℚ) ≤ ((k * W : ℤ) : ℚ) / (n : ℚ) := by
    apply div_nonneg _ hnq.le
    push_cast
    exact mul_nonneg (by exact_mod_cast hk) (by exact_mod_cast hW)
  have h2 : (0 : ℚ) ≤ (((k + 1) * W : ℤ) : ℚ) / (n : ℚ) := by
    apply div_nonneg _ hnq.le
    push_cast
    have hkq : (0 : ℚ) ≤ (k : ℚ) := by exact_mod_cast hk
    exact mul_nonneg (by linarith) (by exact_mod_cast hW)
  rw [pyInt_eq_floor h1, pyInt_eq_floor h2]
  have hid : (((k + 1) * W : ℤ) : ℚ) / (n : ℚ) =
      ((k * W : ℤ) : ℚ) / (n : ℚ) + (W : ℚ) / (n : ℚ) := by
    push_cast
    ring
  rw [hid]
  have := floor_add_ceil (((k * W : ℤ) : ℚ) / (n : ℚ)) ((W : ℚ) / (n : ℚ))
  omega

theorem part_nonneg {W n : ℤ} (hW : 0 ≤ W) (hn : 0 < n) {k : ℤ} (hk : 0 ≤ k) :
    0 ≤ pyInt (((k * W : ℤ) : ℚ) / ((n : ℤ) : ℚ)) := by
  have hnq : (0 : ℚ) < (n : ℚ) := by exact_mod_cast hn
  have h1 : (0 : ℚ) ≤ ((k * W : ℤ) : ℚ) / (n : ℚ) := by
    apply div_nonneg _ hnq.le
    push_cast
    exact mul_nonneg (by exact_mod_cast hk) (by exact_mod_cast hW)
  rw [pyInt_eq_floor h1]
  exact Int.floor_nonneg.mpr h1

theorem part_le_W {W n : ℤ} (hW : 0 ≤ W) (hn : 0 < n) {k : ℤ} (hk : k ≤ n) :
    pyInt (((k * W : ℤ) : ℚ) / ((n : ℤ) : ℚ)) ≤ W := by
  have hnq : (0 : ℚ) < (n : ℚ) := by exact_mod_cast hn
  have hle : ((k * W : ℤ) : ℚ) / (n : ℚ) ≤ (W : ℚ) := by
    rw [div_le_iff hnq]
    push_cast
    have : (k : ℚ) ≤ (n : ℚ) := by exact_mod_cast hk
    nlinarith [show (0 : ℚ) ≤ (W : ℚ) from by exact_mod_cast hW]
  unfold pyInt
  split
  · have := Int.floor_mono hle
    rw [Int.floor_intCast] at this
    exact this
  · have := Int.ceil_mono hle
    rw [Int.ceil_intCast] at this
    exact this

theorem pyInt_mul_div_self {W n : ℤ} (hn : n ≠ 0) :
    pyInt (((n * W : ℤ) : ℚ) / ((n : ℤ) : ℚ)) = W := by
  have hnq : ((n : ℤ) : ℚ) ≠ 0 := by exact_mod_cast hn
  have : ((n * W : ℤ) : ℚ) / ((n : ℤ) : ℚ) = ((W : ℤ) : ℚ) := by
    push_cast
    field_simp
  rw [this, pyInt_intCast]

theorem pyInt_pred_mul_div {W n : ℤ} (hW : 0 ≤ W) (hn : 0 < n) :
    pyInt ((((n - 1) * W : ℤ) : ℚ) / ((n : ℤ) : ℚ)) = W - ⌈(W : ℚ) / ((n : ℤ) : ℚ)⌉ := by
  have hnq : (0 : ℚ) < (n : ℚ) := by exact_mod_cast hn
  have h1 : (0 : ℚ) ≤ (((n - 1) * W : ℤ) : ℚ) / (n : ℚ) := by
    apply div_nonneg _ hnq.le
    push_cast
    exact mul_nonneg (by exact_mod_cast (by omega : (0 : ℤ) ≤ n - 1)) (by exact_mod_cast hW)
  rw [pyInt_eq_floor h1]
  have hid : (((n - 1) * W : ℤ) : ℚ) / (n : ℚ) = -((W : ℚ) / (n : ℚ)) + ((W : ℤ) : ℚ) := by
    push_cast
    field_simp
    ring
  rw [hid, Int.floor_add_int, Int.floor_neg]
  omega

theorem evenSlices_mem {sb : Span} {n pad : ℤ} {s : Span} (hW : 0 ≤ sb.x2 - sb.x1)
    (hpad : 0 ≤ pad) (hs : s ∈ evenSlices sb n pad) :
    300 ≤ s.x2 - s.x1 ∧ sb.x1 ≤ s.x1 ∧ s.x2 ≤ sb.x2 ∧ s.y1 = sb.y1 ∧ s.y2 = sb.y2 ∧
    s.x2 - s.x1 ≤ ⌈((sb.x2 - sb.x1 : ℤ) : ℚ) / ((n : ℤ) : ℚ)⌉ ∧ 1 ≤ n := by
  rcases List.mem_filterMap.mp hs with ⟨i, hi, hsome⟩
  simp only [Option.ite_none_right_eq_some, Option.some.injEq] at hsome
  obtain ⟨hcond, rfl⟩ := hsome
  have hir := List.mem_range.mp hi
  have hn1 : 1 ≤ n := by omega
  have hL0 : 0 ≤ pyInt ((((i : ℤ) * (sb.x2 - sb.x1) : ℤ) : ℚ) / ((n : ℤ) : ℚ)) :=
    part_nonneg hW (by omega) (Int.natCast_nonneg i)
  have hRW : pyInt (((((i : ℤ) + 1) * (sb.x2 - sb.x1) : ℤ) : ℚ) / ((n : ℤ) : ℚ)) ≤
      sb.x2 - sb.x1 := part_le_W hW (by omega) (by omega)
  have hpart := part_le_ceil hW (show (0:ℤ) < n by omega) (Int.natCast_nonneg i)
  refine ⟨hcond, ?_, ?_, rfl, rfl, ?_, hn1⟩
  · show sb.x1 ≤ sliceL sb n pad i
    unfold sliceL
    split <;> omega
  · show sliceR sb n pad i ≤ sb.x2
    unfold sliceR
    split <;> omega
  · show sliceR sb n pad i - sliceL sb n pad i ≤ _
    unfold sliceR sliceL
    split <;> split <;> omega

theorem evenSlices_ne_nil {sb : Span} {n pad : ℤ} (hn : 2 ≤ n) (hW : 0 ≤ sb.x2 - sb.x1)
    (hpad : 0 ≤ pad)
    (hwide : 300 + pad ≤ ⌈((sb.x2 - sb.x1 : ℤ) : ℚ) / ((n : ℤ) : ℚ)⌉) :
    evenSlices sb n pad ≠ [] := by
  have hcast : ((n.toNat - 1 : ℕ) : ℤ) = n - 1 := by omega
  have hL : sliceL sb n pad (n.toNat - 1) =
      sb.x1 + (sb.x2 - sb.x1 - ⌈((sb.x2 - sb.x1 : ℤ) : ℚ) / ((n : ℤ) : ℚ)⌉) + pad := by
    unfold sliceL
    rw [hcast, pyInt_pred_mul_div hW (by omega), if_pos (by omega)]
  have hR : sliceR sb n pad (n.toNat - 1) = sb.x1 + (sb.x2 - sb.x1) := by
    unfold sliceR
    rw [hcast, show (n - 1 + 1 : ℤ) = n from by ring, pyInt_mul_div_self (by omega),
      if_neg (by omega)]
    ring
  apply List.ne_nil_of_mem (a := (⟨sliceL sb n pad (n.toNat - 1), sb.y1,
    sliceR sb n pad (n.toNat - 1), sb.y2⟩ : Span))
  refine List.mem_filterMap.mpr ⟨n.toNat - 1, List.mem_range.mpr (by omega), ?_⟩
  rw [if_pos (by rw [hL, hR]; omega)]

theorem evenSlices_eq_nil {sb : Span} {n pad : ℤ} (hn : 2 ≤ n) (hW : 0 ≤ sb.x2 - sb.x1)
    (hpad : 0 ≤ pad)
    (hnarrow : ⌈((sb.x2 - sb.x1 : ℤ) : ℚ) / ((n : ℤ) : ℚ)⌉ < 300 + pad) :
    evenSlices sb n pad = [] := by
  apply List.filterMap_eq_nil_iff.mpr
  intro i hi
  have hir := List.mem_range.mp hi
  have hpart := part_le_ceil hW (show (0:ℤ) < n by omega) (Int.natCast_nonneg i)
  have hwidth : ¬ (300 ≤ sliceR sb n pad i - sliceL sb n pad i) := by
    unfold sliceR sliceL
    split <;> split <;> omega
  rw [if_neg hwidth]

theorem evenSlices_one (sb : Span) (pad : ℤ) :
    evenSlices sb 1 pad = if 300 ≤ sb.x2 - sb.x1 then [sb] else [] := by
  have hL : sliceL sb 1 pad 0 = sb.x1 := by
    unfold sliceL
    rw [if_neg (by omega)]
    have : ((((0 : ℕ) : ℤ) * (sb.x2 - sb.x1) : ℤ) : ℚ) / (((1 : ℤ) : ℤ) : ℚ) = ((0 : ℤ) : ℚ) := by
      push_cast
      ring
    rw [this, pyInt_intCast]
    ring
  have hR : sliceR sb 1 pad 0 = sb.x2 := by
    unfold sliceR
    rw [if_neg (by omega)]
    have : (((((0 : ℕ) : ℤ) + 1) * (sb.x2 - sb.x1) : ℤ) : ℚ) / (((1 : ℤ) : ℤ) : ℚ) =
        ((sb.x2 - sb.x1 : ℤ) : ℚ) := by
      push_cast
      ring
    rw [this, pyInt_intCast]
    ring
  unfold evenSlices
  rw [show (1 : ℤ).toNat = 1 from rfl, show List.range 1 = [0] from rfl,
    List.filterMap_cons, List.filterMap_nil]
  rw [hL, hR]
  by_cases h : 300 ≤ sb.x2 - sb.x1
  · rw [if_pos h, if_pos h]
  · rw [if_neg h, if_neg h]

/-!  ### Analysis of `split_wide_screen`  -/

theorem ratioFallback_bounds {sb : Span} {maxW : ℤ} (hW : 0 ≤ sb.x2 - sb.x1) :
    ∀ t ∈ ratioFallback sb maxW,
      (t = sb ∧ ratioFallback sb maxW = [sb]) ∨
      (300 ≤ t.x2 - t.x1 ∧ t.x2 - t.x1 ≤ maxW + 50 ∧ sb.x1 ≤ t.x1 ∧ t.x2 ≤ sb.x2 ∧
        t.y1 = sb.y1 ∧ t.y2 = sb.y2) := by
  intro t ht
  unfold ratioFallback at ht ⊢
  rcases hsnd : (ratios3.foldl (scanStep sb maxW) (none, none)).2 with _ | l
  · rw [hsnd] at ht
    simp only [Option.getD_none, List.mem_singleton] at ht
    exact Or.inl ⟨ht, rfl⟩
  · rw [hsnd] at ht
    simp only [Option.getD_some] at ht
    right
    refine foldl_scan_snd sb maxW (fun l => ∀ t ∈ l,
      300 ≤ t.x2 - t.x1 ∧ t.x2 - t.x1 ≤ maxW + 50 ∧ sb.x1 ≤ t.x1 ∧ t.x2 ≤ sb.x2 ∧
      t.y1 = sb.y1 ∧ t.y2 = sb.y2) ratios3 (none, none) ?_ (by simp) l hsnd t ht
    intro r _ hq _ t' ht'
    obtain ⟨h300, hx1, hx2, hy1, hy2, hle, hn1⟩ := evenSlices_mem hW (by norm_num) ht'
    refine ⟨h300, ?_, hx1, hx2, hy1, hy2⟩
    have hceil : ⌈((sb.x2 - sb.x1 : ℤ) : ℚ) /
        ((nOf (sb.x2 - sb.x1) (sb.y2 - sb.y1) r : ℤ) : ℚ)⌉ ≤ maxW + 50 := by
      apply Int.ceil_le.mpr
      have hq2 := hq.2
      unfold avgOf at hq2
      push_cast at hq2 ⊢
      linarith
    omega

theorem absoluteScreens_mem {sb : Span} {img : Img} {maxW : ℤ} {t : Span}
    (ht : t ∈ absoluteScreens sb img maxW) :
    ∃ u ∈ detect (subImg img sb) 300,
      300 ≤ t.x2 - t.x1 ∧ t.x2 - t.x1 ≤ maxW ∧
      t = ⟨sb.x1 + u.x1, sb.y1 + u.y1, sb.x1 + u.x2, sb.y1 + u.y2⟩ := by
  rcases List.mem_filterMap.mp ht with ⟨u, hu, hsome⟩
  simp only [Option.ite_none_right_eq_some, Option.some.injEq] at hsome
  obtain ⟨hcond, rfl⟩ := hsome
  exact ⟨u, hu, by dsimp only; omega, by dsimp only; omega, rfl⟩

theorem aspectLoop_zero_height (wid minW : ℤ) (hm : 0 < minW) :
    ∀ rs : List ℚ, aspectLoop 0 wid minW rs = [] := by
  intro rs
  induction rs with
  | nil => rfl
  | cons r rest ih =>
    have h0 : pyInt (((0 : ℤ) : ℚ) * r) = 0 := by
      rw [show ((0 : ℤ) : ℚ) * r = ((0 : ℤ) : ℚ) from by push_cast; ring, pyInt_intCast]
    have hnot : ¬ (minW ≤ pyInt (((0 : ℤ) : ℚ) * r) ∧
        2 ≤ wid / pyInt (((0 : ℤ) : ℚ) * r)) := by
      rintro ⟨h1, _⟩
      rw [h0] at h1
      omega
    rw [aspectLoop, if_neg hnot]
    exact ih

theorem detect_zero_height {img : Img} (h0 : img.h = 0) :
    detect img 300 = [⟨0, 0, (img.w : ℤ) - 1, (img.h : ℤ) - 1⟩] := by
  have hgap : ∀ c, isGapCol img c = true := by
    intro c
    unfold isGapCol colMean
    rw [h0]
    simp
  have hsm : ∀ c, smoothedAt img c = true := by
    intro c
    unfold smoothedAt
    rw [Finset.sum_congr rfl fun k _ => show gapVal img _ = 1 by
      unfold gapVal
      rw [hgap]
      simp]
    norm_num
  have hstarts : startsRaw img = [] := by
    unfold startsRaw
    rw [List.filter_eq_nil_iff.mpr fun j _ => by rw [hsm j, hsm (j + 1)]; simp]
    rfl
  have hends : endsRaw img = [] := by
    unfold endsRaw
    rw [List.filter_eq_nil_iff.mpr fun j _ => by rw [hsm j, hsm (j + 1)]; simp]
    rfl
  unfold detect
  rw [if_pos ⟨hstarts, hends⟩]
  unfold aspect
  rw [h0]
  rw [show ((0 : ℕ) : ℤ) = (0 : ℤ) from rfl, aspectLoop_zero_height img.w 300 (by omega)]
  rw [if_pos rfl]

theorem splitWide_width_cases {sb : Span} {img : Img} (hW : 450 < sb.x2 - sb.x1) :
    ∀ t ∈ splitWide sb img 450,
      (300 ≤ t.x2 - t.x1 ∧ t.x2 - t.x1 ≤ 500) ∨ (t = sb ∧ splitWide sb img 450 = [sb]) := by
  intro t ht
  unfold splitWide at ht ⊢
  rw [if_neg (by omega)] at ht ⊢
  by_cases h1000 : 1000 < sb.x2 - sb.x1
  · rw [if_pos h1000] at ht ⊢
    split at ht
    · next hnil =>
      rw [if_pos hnil]
      simp only [List.mem_singleton] at ht
      exact Or.inr ⟨ht, rfl⟩
    · left
      have hWpos : (0 : ℤ) ≤ sb.x2 - sb.x1 := by omega
      have hrnd : ((sb.x2 - sb.x1 : ℤ) : ℚ) / 380 - 1/2 ≤
          ((npRound (((sb.x2 - sb.x1 : ℤ) : ℚ) / 380) : ℤ) : ℚ) :=
        npRound_ge _
      have hnr0 : npRound (((sb.x2 - sb.x1 : ℤ) : ℚ) / 380) ≤
          max 2 (npRound (((sb.x2 - sb.x1 : ℤ) : ℚ) / 380)) := le_max_right _ _
      set n := max 2 (npRound (((sb.x2 - sb.x1 : ℤ) : ℚ) / 380)) with hn
      have hn2 : 2 ≤ n := le_max_left _ _
      have hnr : ((npRound (((sb.x2 - sb.x1 : ℤ) : ℚ) / 380) : ℤ) : ℚ) ≤ ((n : ℤ) : ℚ) := by
        exact_mod_cast hnr0
      obtain ⟨h300, _, _, _, _, hle, hn1⟩ :=
        evenSlices_mem hWpos (by norm_num) (show t ∈ evenSlices sb n 8 from ht)
      refine ⟨h300, ?_⟩
      have hceil : ⌈((sb.x2 - sb.x1 : ℤ) : ℚ) / ((n : ℤ) : ℚ)⌉ ≤ 500 := by
        apply Int.ceil_le.mpr
        have hnq : (0 : ℚ) < ((n : ℤ) : ℚ) := by exact_mod_cast (by omega : (0:ℤ) < n)
        rw [div_le_iff hnq]
        have h2q : (2 : ℚ) ≤ ((n : ℤ) : ℚ) := by exact_mod_cast hn2
        push_cast at hrnd hnr ⊢
        linarith
      omega
  · rw [if_neg h1000] at ht ⊢
    split at ht
    · next hlen =>
      left
      obtain ⟨u, _, h1, h2, _⟩ := absoluteScreens_mem ht
      omega
    · next hlen =>
      rw [if_neg hlen]
      rcases ratioFallback_bounds (by omega) t ht with ⟨rfl, heq⟩ | hfacts
      · exact Or.inr ⟨rfl, heq⟩
      · exact Or.inl ⟨hfacts.1, by omega⟩

theorem splitWide_ok {sb : Span} {img : Img} (hok : okSpan (img.w : ℤ) (img.h : ℤ) sb)
    (hW : 450 < sb.x2 - sb.x1) :
    ∀ t ∈ splitWide sb img 450, okSpan (img.w : ℤ) (img.h : ℤ) t := by
  obtain ⟨hx1, hx12, hx2, hy1, hy12, hy2, hxd, hyd⟩ := hok
  intro t ht
  unfold splitWide at ht
  rw [if_neg (by omega)] at ht
  by_cases h1000 : 1000 < sb.x2 - sb.x1
  · rw [if_pos h1000] at ht
    split at ht
    · simp only [List.mem_singleton] at ht
      subst ht
      exact ⟨hx1, hx12, hx2, hy1, hy12, hy2, hxd, hyd⟩
    · obtain ⟨h300, ha, hb, hc, hd, _, _⟩ := evenSlices_mem (by omega) (by norm_num) ht
      unfold okSpan
      omega
  · rw [if_neg h1000] at ht
    split at ht
    · next hlen =>
      obtain ⟨u, hu, h1, h2, heq⟩ := absoluteScreens_mem ht
      by_cases hH : 0 < sb.y2 - sb.y1
      · have hwsub : 0 < (subImg img sb).w := by
          show 0 < (sb.x2 - sb.x1).toNat
          omega
        have hhsub : 0 < (subImg img sb).h := by
          show 0 < (sb.y2 - sb.y1).toNat
          omega
        obtain ⟨g1, g2, g3, g4, g5, g6, g7, g8⟩ :=
          detect_ok (by omega) hwsub hhsub u hu
        have hcw : ((subImg img sb).w : ℤ) = sb.x2 - sb.x1 := by
          show ((sb.x2 - sb.x1).toNat : ℤ) = _
          omega
        have hch : ((subImg img sb).h : ℤ) = sb.y2 - sb.y1 := by
          show ((sb.y2 - sb.y1).toNat : ℤ) = _
          omega
        rw [hcw] at g3 g7
        rw [hch] at g6 g8
        subst heq
        unfold okSpan
        dsimp only
        omega
      · exfalso
        have hH0 : (subImg img sb).h = 0 := by
          show (sb.y2 - sb.y1).toNat = 0
          omega
        have hlen1 : (absoluteScreens sb img 450).length ≤ 1 := by
          unfold absoluteScreens
          rw [detect_zero_height hH0]
          exact le_trans (List.length_filterMap_le _ _) (by simp)
        omega
    · rcases ratioFallback_bounds (by omega) t ht with ⟨rfl, _⟩ | hfacts
      · exact ⟨hx1, hx12, hx2, hy1, hy12, hy2, hxd, hyd⟩
      · obtain ⟨f1, f2, f3, f4, f5, f6⟩ := hfacts
        unfold okSpan
        omega

theorem finalScreens_mem {img : Img} {s : Span} (hs : s ∈ finalScreens img) :
    ∃ d ∈ detect img 300,
      (s = d ∧ d.x2 - d.x1 ≤ 450) ∨ (450 < d.x2 - d.x1 ∧ s ∈ splitWide d img 450) := by
  unfold finalScreens at hs
  rcases List.mem_flatMap.mp hs with ⟨d, hd, hmem⟩
  refine ⟨d, hd, ?_⟩
  split at hmem
  · next h => exact Or.inr ⟨h, hmem⟩
  · next h =>
    simp only [List.mem_singleton] at hmem
    exact Or.inl ⟨hmem, by omega⟩

theorem finalScreens_ok {img : Img} (hw : 0 < img.w) (hh : 0 < img.h) :
    ∀ s ∈ finalScreens img, okSpan (img.w : ℤ) (img.h : ℤ) s := by
  intro s hs
  rcases finalScreens_mem hs with ⟨d, hd, ⟨rfl, _⟩ | ⟨hgt450, hsp⟩⟩
  · exact detect_ok (by omega) hw hh _ hd
  · exact splitWide_ok (detect_ok (by omega) hw hh _ hd) hgt450 s hsp

/-!  ### Claims C1 (amended), C2, C4  -/

/-- C1 (amended): every span in the pipeline's final output before padding
either has width at most `maxWidth + 50 = 500`, or is an original detected
span that `split_wide_screen` returned unchanged.  The claim's bound of
`maxWidth = 450` itself fails, because the ratio fallback accepts average
slice widths up to `maxWidth + 50` (see the counterexample). -/
theorem c1_max_width_amended (img : Img) :
    ∀ s ∈ finalScreens img,
      s.x2 - s.x1 ≤ 500 ∨ (s ∈ detect img 300 ∧ splitWide s img 450 = [s]) := by
  intro s hs
  rcases finalScreens_mem hs with ⟨d, hd, ⟨rfl, hle⟩ | ⟨hgt, hsp⟩⟩
  · left
    omega
  · rcases splitWide_width_cases hgt s hsp with ⟨_, h500⟩ | ⟨rfl, heq⟩
    · left
      exact h500
    · exact Or.inr ⟨hd, heq⟩

/-- C2: every span in the pipeline's final output has width at least
`minScreenWidth = 300`, except in the single degenerate case where the entire
image is returned as the one span `(0, 0, width-1, height-1)` because neither
gap detection nor any fallback produced a qualifying split. -/
theorem c2_min_width (img : Img) :
    ∀ s ∈ finalScreens img,
      300 ≤ s.x2 - s.x1 ∨
        finalScreens img = [⟨0, 0, (img.w : ℤ) - 1, (img.h : ℤ) - 1⟩] := by
  intro s hs
  rcases finalScreens_mem hs with ⟨d, hd, hcase⟩
  rcases detect_min_width hd with h300 | ⟨hde, hdet⟩
  · rcases hcase with ⟨rfl, _⟩ | ⟨hgt, hsp⟩
    · exact Or.inl h300
    · rcases splitWide_width_cases hgt s hsp with ⟨h3, _⟩ | ⟨rfl, _⟩
      · exact Or.inl h3
      · exact Or.inl h300
  · subst hde
    rcases hcase with ⟨rfl, hle⟩ | ⟨hgt, hsp⟩
    · right
      unfold finalScreens
      rw [hdet, List.flatMap_cons, List.flatMap_nil, List.append_nil, if_neg (by omega)]
    · rcases splitWide_width_cases hgt s hsp with ⟨h3, _⟩ | ⟨_, heq⟩
      · exact Or.inl h3
      · right
        unfold finalScreens
        rw [hdet, List.flatMap_cons, List.flatMap_nil, List.append_nil, if_pos hgt, heq]

/-- C4: after the uniform 2px padding clamped to image bounds, every output
span satisfies `x1 < x2`, `y1 < y2`, `0 ≤ x1`, `x2 ≤ width`, `0 ≤ y1` and
`y2 ≤ height`, for every input buffer with positive dimensions. -/
theorem c4_validity (img : Img) (hh : 0 < img.h) (hw : 0 < img.w) :
    ∀ s ∈ paddedScreens img,
      0 ≤ s.x1 ∧ s.x1 < s.x2 ∧ s.x2 ≤ (img.w : ℤ) ∧
      0 ≤ s.y1 ∧ s.y1 < s.y2 ∧ s.y2 ≤ (img.h : ℤ) := by
  intro s hs
  unfold paddedScreens at hs
  rcases List.mem_map.mp hs with ⟨t, ht, rfl⟩
  obtain ⟨g1, g2, g3, g4, g5, g6, g7, g8⟩ := finalScreens_ok hw hh t ht
  unfold padSpan
  dsimp only
  omega

/-- Witness for C4 at a concrete 1-by-1 buffer. -/
theorem c4_witness :
    0 < (Img.mk 1 1 fun _ _ => 0).h ∧ 0 < (Img.mk 1 1 fun _ _ => 0).w ∧
    ∀ s ∈ paddedScreens (Img.mk 1 1 fun _ _ => 0),
      0 ≤ s.x1 ∧ s.x1 < s.x2 ∧ s.x2 ≤ ((Img.mk 1 1 fun _ _ => 0).w : ℤ) ∧
      0 ≤ s.y1 ∧ s.y1 < s.y2 ∧ s.y2 ≤ ((Img.mk 1 1 fun _ _ => 0).h : ℤ) :=
  ⟨Nat.one_pos, Nat.one_pos, c4_validity _ Nat.one_pos Nat.one_pos⟩

/-!  ### Claims C6 and C7: the aspect-ratio fallback's ratio selection  -/

theorem pyInt_eval {q : ℚ} {z : ℤ} (h0 : 0 ≤ q) (h1 : (z : ℚ) ≤ q) (h2 : q < z + 1) :
    pyInt q = z := by
  rw [pyInt_eq_floor h0]
  exact Int.floor_eq_iff.mpr ⟨h1, by exact_mod_cast h2⟩

theorem ceil_eval {q : ℚ} {z : ℤ} (h1 : (z : ℚ) - 1 < q) (h2 : q ≤ z) : ⌈q⌉ = z :=
  Int.ceil_eq_iff.mpr ⟨by exact_mod_cast h1, h2⟩

theorem aspectLoop_eq_firstUsable (hgt wid minW : ℤ) :
    ∀ rs : List ℚ, aspectLoop hgt wid minW rs =
      match firstUsableEW hgt wid minW rs with
      | some ew => aspectSlices hgt wid minW ew
      | none => [] := by
  intro rs
  induction rs with
  | nil => rfl
  | cons r rest ih =>
    rw [aspectLoop, firstUsableEW]
    by_cases h1 : minW ≤ pyInt ((hgt : ℚ) * r) ∧ 2 ≤ wid / pyInt ((hgt : ℚ) * r)
    · rw [if_pos h1]
      by_cases h2 : aspectSlices hgt wid minW (pyInt ((hgt : ℚ) * r)) = []
      · rw [if_pos h2, if_neg (by tauto), ih]
      · rw [if_neg h2, if_pos ⟨h1.1, h1.2, h2⟩]
    · rw [if_neg h1, if_neg (by tauto), ih]

theorem firstUsableEW_facts {hgt wid minW ew : ℤ} :
    ∀ {rs : List ℚ}, firstUsableEW hgt wid minW rs = some ew →
      minW ≤ ew ∧ 2 ≤ wid / ew ∧ aspectSlices hgt wid minW ew ≠ [] := by
  intro rs
  induction rs with
  | nil => intro h; simp [firstUsableEW] at h
  | cons r rest ih =>
    intro h
    rw [firstUsableEW] at h
    split at h
    · next hc =>
      cases h
      exact hc
    · exact ih h

/-- The selection rule `detect_screens_by_aspect_ratio` actually implements:
the partition of the first ratio that passes the two guards **and** whose
slice list survives the minimum-width filter; the whole image otherwise. -/
theorem aspect_eq_firstUsable (hgt wid minW : ℤ) :
    aspect hgt wid minW =
      match firstUsableEW hgt wid minW ratios4 with
      | some ew => aspectSlices hgt wid minW ew
      | none => [⟨0, 0, wid - 1, hgt - 1⟩] := by
  unfold aspect
  rw [aspectLoop_eq_firstUsable]
  rcases h : firstUsableEW hgt wid minW ratios4 with _ | ew
  · simp
  · dsimp only
    rw [if_neg (firstUsableEW_facts h).2.2]

/-- C6 (amended): `detect_screens_by_aspect_ratio` partitions using exactly
the first ratio for which the estimated width passes the `min_screen_width`
guard, at least two screens fit, **and** at least one slice survives the
minimum-width filter; no later ratio influences the output when such a ratio
exists.  (The original claim, which drops the third condition, fails: a
qualifying ratio whose slices are all discarded passes control to later
ratios; see the counterexample.) -/
theorem c6_first_ratio_amended (hgt wid minW : ℤ) :
    aspect hgt wid minW =
      match firstUsableEW hgt wid minW ratios4 with
      | some ew => aspectSlices hgt wid minW ew
      | none => [⟨0, 0, wid - 1, hgt - 1⟩] :=
  aspect_eq_firstUsable hgt wid minW

theorem pyInt_655_r1 : pyInt (((655 : ℤ) : ℚ) * (6/13)) = 302 :=
  pyInt_eval (by norm_num) (by norm_num) (by norm_num)

theorem pyInt_655_r2 : pyInt (((655 : ℤ) : ℚ) * (9/16)) = 368 :=
  pyInt_eval (by norm_num) (by norm_num) (by norm_num)

theorem firstUsable_655 : firstUsableEW 655 760 300 ratios4 = some 368 := by
  rw [show ratios4 = [6/13, 9/16, 5/8, 3/4] from rfl]
  rw [firstUsableEW, if_neg, firstUsableEW, if_pos]
  · rw [pyInt_655_r2]
  · rw [pyInt_655_r2]
    refine ⟨by norm_num, by decide, by decide⟩
  · rw [pyInt_655_r1]
    rintro ⟨-, -, hne⟩
    exact hne (by decide)

/-- C6 counterexample: on a 760-wide, 655-tall uniform image the first ratio
passing the two guards stated by the claim is `9/19.5` (estimated width 302,
two screens), yet the output is not that ratio's partition: all its slices
are discarded by the width filter and the later ratio `9/16` (estimated
width 368) determines the output instead. -/
theorem c6_counterexample :
    firstGuardEW 655 760 300 ratios4 = some 302 ∧
    aspect 655 760 300 ≠ aspectSlices 655 760 300 302 ∧
    aspect 655 760 300 = aspectSlices 655 760 300 368 := by
  have hasp : aspect 655 760 300 = aspectSlices 655 760 300 368 := by
    rw [aspect_eq_firstUsable, firstUsable_655]
  refine ⟨?_, ?_, hasp⟩
  · rw [show ratios4 = [6/13, 9/16, 5/8, 3/4] from rfl]
    rw [firstGuardEW, if_pos]
    · rw [pyInt_655_r1]
    · rw [pyInt_655_r1]
      exact ⟨by norm_num, by decide⟩
  · rw [hasp]
    decide

/-- C7 (amended): every slice `detect_screens_by_aspect_ratio` produces has
`y1 = 0` and `y2 = height - 1` (so under the `[y1, y2)` crop convention the
bottom row is not covered, rather than `y2 = height` as claimed), and for the
selected ratio the pre-shrink slices partition `[0, numScreens*estimatedWidth)`
(not the whole `[0, width)` as claimed: the `width mod estimatedWidth`
rightmost columns are unassigned) into `numScreens` equal parts. -/
theorem c7_slices_amended (hgt wid minW : ℤ) :
    (∀ s ∈ aspect hgt wid minW, s.y1 = 0 ∧ s.y2 = hgt - 1) ∧
    (∀ ew : ℤ, 0 < minW → firstUsableEW hgt wid minW ratios4 = some ew →
      (wid / ew) * ew ≤ wid ∧
      (∀ i : ℕ, (i : ℤ) < wid / ew → min (((i : ℤ) + 1) * ew) wid = ((i : ℤ) + 1) * ew) ∧
      (∀ x : ℤ, (0 ≤ x ∧ x < (wid / ew) * ew) ↔
        ∃ i : ℤ, 0 ≤ i ∧ i < wid / ew ∧ i * ew ≤ x ∧ x < (i + 1) * ew)) := by
  constructor
  · intro s hs
    exact aspect_y hs
  · intro ew hm hfu
    obtain ⟨hminW, hnum2, _⟩ := firstUsableEW_facts hfu
    have hew : 0 < ew := by omega
    have hdm : wid / ew * ew ≤ wid := by
      have h := Int.ediv_add_emod wid ew
      have h2 := Int.emod_nonneg wid (by omega : ew ≠ 0)
      have h3 : wid / ew * ew = ew * (wid / ew) := mul_comm _ _
      omega
    refine ⟨hdm, ?_, ?_⟩
    · intro i hi
      apply min_eq_left
      have h1 : ((i : ℤ) + 1) * ew ≤ (wid / ew) * ew := by
        apply mul_le_mul_of_nonneg_right _ hew.le
        omega
      omega
    · intro x
      constructor
      · rintro ⟨hx0, hxlt⟩
        refine ⟨x / ew, Int.ediv_nonneg hx0 hew.le, ?_, ?_, ?_⟩
        · by_contra hcon
          push_neg at hcon
          have : (wid / ew) * ew ≤ (x / ew) * ew :=
            mul_le_mul_of_nonneg_right hcon hew.le
          have h2 := Int.ediv_mul_le x (by omega : ew ≠ 0)
          omega
        · exact Int.ediv_mul_le x (by omega : ew ≠ 0)
        · exact Int.lt_ediv_add_one_mul_self x hew
      · rintro ⟨i, hi0, hilt, hle, hlt⟩
        constructor
        · have : 0 ≤ i * ew := mul_nonneg hi0 hew.le
          omega
        · have h1 : (i + 1) * ew ≤ (wid / ew) * ew := by
            apply mul_le_mul_of_nonneg_right _ hew.le
            omega
          omega

theorem pyInt_800_r1 : pyInt (((800 : ℤ) : ℚ) * (6/13)) = 369 :=
  pyInt_eval (by norm_num) (by norm_num) (by norm_num)

theorem firstUsable_800 : firstUsableEW 800 1140 300 ratios4 = some 369 := by
  rw [show ratios4 = [6/13, 9/16, 5/8, 3/4] from rfl]
  rw [firstUsableEW, if_pos]
  · rw [pyInt_800_r1]
  · rw [pyInt_800_r1]
    refine ⟨by norm_num, by decide, by decide⟩

/-- C7 counterexample: for a 1140-wide, 800-tall image the fallback selects
ratio `9/19.5` (estimated width 369, three screens), but its slices end at
`y2 = 799`, not at `y2 = height = 800` as the claim states, and every slice's
right edge is at most `3 * 369 = 1107 < 1140`, so the slices do not cover the
whole width `[0, 1140)`: columns `1107 .. 1139` belong to no slice even
before the interior shrink. -/
theorem c7_counterexample :
    ¬ (∀ s ∈ aspect 800 1140 300, s.y2 = 800) ∧
    firstUsableEW 800 1140 300 ratios4 = some 369 ∧
    (∀ s ∈ aspect 800 1140 300, s.x2 ≤ 1107) ∧ (3 : ℤ) * 369 < 1140 := by
  have hasp : aspect 800 1140 300 = aspectSlices 800 1140 300 369 := by
    rw [aspect_eq_firstUsable, firstUsable_800]
  refine ⟨?_, firstUsable_800, ?_, by norm_num⟩
  · rw [hasp]
    decide
  · rw [hasp]
    decide

/-- Witness for the implication of the amended C7 at the concrete input
`height = 800`, `width = 1140`, `minScreenWidth = 300`, whose selected
estimated width is 369 with three screens. -/
theorem c7_witness :
    (0 : ℤ) < 300 ∧ firstUsableEW 800 1140 300 ratios4 = some 369 ∧
    ((1140 : ℤ) / 369) * 369 ≤ 1140 ∧
    (∀ x : ℤ, (0 ≤ x ∧ x < ((1140 : ℤ) / 369) * 369) ↔
      ∃ i : ℤ, 0 ≤ i ∧ i < (1140 : ℤ) / 369 ∧ i * 369 ≤ x ∧ x < (i + 1) * 369) := by
  have h := (c7_slices_amended 800 1140 300).2 369 (by norm_num) firstUsable_800
  exact ⟨by norm_num, firstUsable_800, h.1, h.2.2⟩

/-!  ### Claim C10: discarding pairs without content rows  -/

/-- C10: a paired start/end of qualifying width is nevertheless discarded
when no row within its column range has standard deviation above 5 (no
content rows); when this discards every pair, `detect_screen_boundaries`
falls back to aspect-ratio partitioning even though gap transitions were
detected. -/
theorem c10_content_row_discard (img : Img) (minW : ℤ)
    (htrans : startsRaw img ≠ [] ∨ endsRaw img ≠ [])
    (hpairs : ∀ p ∈ detectPairs img, minW ≤ p.2 - p.1 ∧ contentRows img p.1 p.2 = ∅) :
    detect img minW = aspect img.h img.w minW := by
  have hnil : detectScreens img minW = [] := by
    unfold detectScreens
    apply List.filterMap_eq_nil_iff.mpr
    intro p hp
    obtain ⟨hw, hcr⟩ := hpairs p hp
    unfold pairSpan
    rw [if_pos hw, dif_neg]
    rw [hcr]
    exact Finset.not_nonempty_empty
  unfold detect
  rw [if_neg (by tauto), if_pos hnil]

/-!  ### Counting form of the smoothing filter  -/

theorem gap_count_iff (n : ℕ) : ((4 : ℚ)/5 < (n : ℚ)/10) ↔ 9 ≤ n := by
  rw [div_lt_div_iff (by norm_num) (by norm_num)]
  constructor
  · intro h
    by_contra hc
    push_neg at hc
    have hn8 : n ≤ 8 := by omega
    have : (n : ℚ) ≤ 8 := by exact_mod_cast hn8
    linarith
  · intro h
    have : (9 : ℚ) ≤ (n : ℚ) := by exact_mod_cast h
    linarith

theorem smoothedAt_count (img : Img) (c : ℕ) :
    smoothedAt img c = decide (9 ≤ ((Finset.range 10).filter fun (k : ℕ) =>
      isGapCol img (reflectIdx img.w ((c : ℤ) - 5 + k)) = true).card) := by
  unfold smoothedAt
  have hsum : (∑ k in Finset.range 10, gapVal img (reflectIdx img.w ((c : ℤ) - 5 + k))) =
      (((Finset.range 10).filter fun (k : ℕ) =>
        isGapCol img (reflectIdx img.w ((c : ℤ) - 5 + k)) = true).card : ℚ) := by
    unfold gapVal
    rw [Finset.sum_ite, Finset.sum_const, Finset.sum_const]
    simp
  rw [hsum]
  exact decide_eq_decide.mpr (gap_count_iff _)

theorem filter_range_eq_single {p : ℕ → Bool} {n k : ℕ} (hk : k < n)
    (h : ∀ j, j < n → (p j = true ↔ j = k)) : (List.range n).filter p = [k] := by
  induction n with
  | zero => omega
  | succ m ih =>
    rw [List.range_succ, List.filter_append]
    by_cases hkm : k = m
    · subst hkm
      have h1 : (List.range k).filter p = [] := by
        apply List.filter_eq_nil_iff.mpr
        intro j hj hpj
        have hjk := (h j (by have := List.mem_range.mp hj; omega)).mp hpj
        have := List.mem_range.mp hj
        omega
      have h2 : p k = true := (h k (by omega)).mpr rfl
      rw [h1]
      simp [h2]
    · have hkm' : k < m := by omega
      rw [ih hkm' (fun j hj => h j (by omega))]
      have h2 : ¬ p m = true := fun hc => hkm ((h m (by omega)).mp hc).symm
      simp [h2]

/-!  ### The C10 witness image: 40 wide, 17 tall  -/

/-- A 40-by-17 buffer: columns 0-9 pure white, columns 10-39 showing 255 on
the top two rows and 238 below.  Its only qualifying pair has no content
rows. -/
def w10Img : Img := ⟨17, 40, fun r c => if c < 10 then 255 else if r < 2 then 255 else 238⟩

theorem w10_gap (c : ℕ) : isGapCol w10Img c = decide (c < 10) := by
  by_cases hc : c < 10
  · have hmean : colMean w10Img c = 255 := by
      unfold colMean w10Img
      dsimp only
      rw [Finset.sum_congr rfl fun r _ => if_pos hc]
      rw [Finset.sum_const]
      norm_num
    unfold isGapCol
    rw [hmean]
    rw [decide_eq_true (show (240 : ℚ) < 255 by norm_num), decide_eq_true hc]
    simp
  · have hsum : (∑ r in Finset.range w10Img.h, w10Img.pix r c) = 4080 := by
      unfold w10Img
      dsimp only
      rw [Finset.sum_congr rfl fun r _ => if_neg hc]
      norm_num [Finset.sum_range_succ]
    have hsq : (∑ r in Finset.range w10Img.h, w10Img.pix r c ^ 2) = 979710 := by
      unfold w10Img
      dsimp only
      rw [Finset.sum_congr rfl fun r _ => by rw [if_neg hc]]
      norm_num [Finset.sum_range_succ]
    have hmean : colMean w10Img c = 240 := by
      unfold colMean
      rw [hsum]
      norm_num [w10Img]
    have hvar : colVar w10Img c = 30 := by
      unfold colVar colSqMean
      rw [hsq, hmean]
      norm_num [w10Img]
    unfold isGapCol
    rw [hmean, hvar]
    rw [decide_eq_false (show ¬ (30 : ℚ) < 25 by norm_num),
      decide_eq_false (show ¬ (240 : ℚ) < 240 by norm_num),
      decide_eq_false (show ¬ (240 : ℚ) < 15 by norm_num),
      decide_eq_false hc]
    rfl

theorem w10_smoothed : ∀ c, c < 40 → smoothedAt w10Img c = decide (c ≤ 6) := by
  intro c hc
  rw [smoothedAt_count]
  rw [show ((Finset.range 10).filter fun (k : ℕ) =>
      isGapCol w10Img (reflectIdx w10Img.w ((c : ℤ) - 5 + k)) = true) =
      ((Finset.range 10).filter fun (k : ℕ) => reflectIdx 40 ((c : ℤ) - 5 + k) < 10) from
    Finset.filter_congr fun k _ => by
      rw [w10_gap]
      simp only [decide_eq_true_eq]
      exact Iff.rfl]
  revert hc
  revert c
  decide

theorem w10_starts : startsRaw w10Img = [7] := by
  unfold startsRaw
  rw [show w10Img.w - 1 = 39 from rfl]
  rw [filter_range_eq_single (k := 6) (by omega) ?h]
  · rfl
  case h =>
    intro j hj
    rw [w10_smoothed j (by omega), w10_smoothed (j + 1) (by omega)]
    simp only [Bool.and_eq_true, Bool.not_eq_true', decide_eq_true_eq, decide_eq_false_iff_not]
    omega

theorem w10_ends : endsRaw w10Img = [] := by
  unfold endsRaw
  rw [show w10Img.w - 1 = 39 from rfl]
  rw [List.filter_eq_nil_iff.mpr ?h]
  · rfl
  case h =>
    intro j hj
    have hjr := List.mem_range.mp hj
    rw [w10_smoothed j (by omega), w10_smoothed (j + 1) (by omega)]
    simp only [Bool.and_eq_true, Bool.not_eq_true', decide_eq_true_eq, decide_eq_false_iff_not]
    omega

theorem w10_pairs : detectPairs w10Img = [(7, 39)] := by
  have hs0 : smoothedAt w10Img 0 = true := by
    rw [w10_smoothed 0 (by omega)]
    decide
  have hs39 : smoothedAt w10Img (w10Img.w - 1) = false := by
    rw [show w10Img.w - 1 = 39 from rfl, w10_smoothed 39 (by omega)]
    rfl
  unfold detectPairs screenStarts screenEnds
  rw [w10_starts, w10_ends]
  rw [if_neg (by simp [hs0]), if_neg (by simp [hs0]), if_neg (by simp), if_pos ⟨hs39, rfl⟩]
  rfl

theorem w10_content : contentRows w10Img 7 39 = ∅ := by
  unfold contentRows
  apply Finset.filter_false_of_mem
  intro r hr
  by_cases h2 : r < 2
  · have hsum : (∑ c in Finset.Ico (7 : ℤ).toNat (39 : ℤ).toNat, w10Img.pix r c) = 8160 := by
      unfold w10Img
      dsimp only
      rw [Finset.sum_congr rfl fun c _ =>
        show (if c < 10 then (255 : ℚ) else if r < 2 then 255 else 238) = 255 from by
          split <;> norm_num [h2]]
      rw [Finset.sum_const, show (Finset.Ico (Int.toNat 7) (Int.toNat 39)).card = 32 from by
        decide]
      norm_num
    have hsq : (∑ c in Finset.Ico (7 : ℤ).toNat (39 : ℤ).toNat, w10Img.pix r c ^ 2) =
        2080800 := by
      unfold w10Img
      dsimp only
      rw [Finset.sum_congr rfl fun c _ =>
        show (if c < 10 then (255 : ℚ) else if r < 2 then 255 else 238) ^ 2 = 65025 from by
          split <;> norm_num [h2]]
      rw [Finset.sum_const, show (Finset.Ico (Int.toNat 7) (Int.toNat 39)).card = 32 from by
        decide]
      norm_num
    unfold rowVar rowSqMean rowMean
    rw [hsum, hsq]
    norm_num
  · have hsum : (∑ c in Finset.Ico (7 : ℤ).toNat (39 : ℤ).toNat, w10Img.pix r c) = 7667 := by
      unfold w10Img
      dsimp only
      rw [Finset.sum_congr rfl fun c _ =>
        show (if c < 10 then (255 : ℚ) else if r < 2 then 255 else 238) =
            (if c < 10 then (255 : ℚ) else 238) from by
          split <;> norm_num [h2]]
      rw [Finset.sum_ite, Finset.sum_const, Finset.sum_const]
      rw [show ((Finset.Ico (7 : ℤ).toNat (39 : ℤ).toNat).filter fun c => c < 10).card = 3
        from by decide]
      rw [show ((Finset.Ico (7 : ℤ).toNat (39 : ℤ).toNat).filter fun c => ¬ c < 10).card = 29
        from by decide]
      norm_num
    have hsq : (∑ c in Finset.Ico (7 : ℤ).toNat (39 : ℤ).toNat, w10Img.pix r c ^ 2) =
        1837751 := by
      unfold w10Img
      dsimp only
      rw [Finset.sum_congr rfl fun c _ =>
        show (if c < 10 then (255 : ℚ) else if r < 2 then 255 else 238) ^ 2 =
            (if c < 10 then (65025 : ℚ) else 56644) from by
          split <;> norm_num [h2]]
      rw [Finset.sum_ite, Finset.sum_const, Finset.sum_const]
      rw [show ((Finset.Ico (7 : ℤ).toNat (39 : ℤ).toNat).filter fun c => c < 10).card = 3
        from by decide]
      rw [show ((Finset.Ico (7 : ℤ).toNat (39 : ℤ).toNat).filter fun c => ¬ c < 10).card = 29
        from by decide]
      norm_num
    unfold rowVar rowSqMean rowMean
    rw [hsum, hsq]
    norm_num

/-- Witness for C10: on the 40-by-17 buffer `w10Img` with
`min_screen_width = 10`, a start/end transition is detected and the single
pair `(7, 39)` has qualifying width but no content rows, so detection falls
back to aspect-ratio partitioning. -/
theorem c10_witness :
    (startsRaw w10Img ≠ [] ∨ endsRaw w10Img ≠ []) ∧
    (∀ p ∈ detectPairs w10Img, (10 : ℤ) ≤ p.2 - p.1 ∧ contentRows w10Img p.1 p.2 = ∅) ∧
    detect w10Img 10 = aspect w10Img.h w10Img.w 10 := by
  have h1 : startsRaw w10Img ≠ [] ∨ endsRaw w10Img ≠ [] := by
    rw [w10_starts]
    left
    simp
  have h2 : ∀ p ∈ detectPairs w10Img, (10 : ℤ) ≤ p.2 - p.1 ∧
      contentRows w10Img p.1 p.2 = ∅ := by
    rw [w10_pairs]
    intro p hp
    rw [List.mem_singleton] at hp
    subst hp
    exact ⟨by norm_num, w10_content⟩
  exact ⟨h1, h2, c10_content_row_discard w10Img 10 h1 h2⟩

/-!  ### Claim C5: the ratio-based uniformity split  -/

theorem effW_ge (hgt : ℤ) (r : ℚ) : 300 ≤ effW hgt r := by
  unfold effW
  split <;> omega

theorem nOf_pos {wid : ℤ} (hgt : ℤ) (r : ℚ) (hw : 0 < wid) : 1 ≤ nOf wid hgt r := by
  unfold nOf
  have he : (0 : ℤ) < effW hgt r := by have := effW_ge hgt r; omega
  have heq : (0 : ℚ) < ((effW hgt r : ℤ) : ℚ) := by exact_mod_cast he
  have hwq : (0 : ℚ) < (wid : ℚ) := by exact_mod_cast hw
  have hpos := Int.ceil_pos.mpr (div_pos hwq heq)
  omega

theorem avg_lower {wid hgt : ℤ} {r : ℚ} (hw : 0 < wid)
    (h : 300 ≤ avgOf wid hgt r) : 300 * nOf wid hgt r ≤ wid := by
  have hn := nOf_pos hgt r hw
  have hnq : (0 : ℚ) < ((nOf wid hgt r : ℤ) : ℚ) := by
    exact_mod_cast (show (0 : ℤ) < nOf wid hgt r by omega)
  unfold avgOf at h
  rw [le_div_iff hnq] at h
  have hq : ((300 * nOf wid hgt r : ℤ) : ℚ) ≤ (wid : ℚ) := by
    push_cast
    push_cast at h
    linarith
  exact_mod_cast hq

theorem avg_upper {wid hgt : ℤ} {r : ℚ} (hw : 0 < wid)
    (h : avgOf wid hgt r ≤ ((450 : ℤ) : ℚ) + 50) : wid ≤ 500 * nOf wid hgt r := by
  have hn := nOf_pos hgt r hw
  have hnq : (0 : ℚ) < ((nOf wid hgt r : ℤ) : ℚ) := by
    exact_mod_cast (show (0 : ℤ) < nOf wid hgt r by omega)
  unfold avgOf at h
  rw [div_le_iff hnq] at h
  have hq : (wid : ℚ) ≤ ((500 * nOf wid hgt r : ℤ) : ℚ) := by
    push_cast
    push_cast at h
    linarith
  exact_mod_cast hq

theorem nOf_le_two {wid hgt : ℤ} {r : ℚ} (h : nOf wid hgt r ≤ 2) :
    wid ≤ 2 * effW hgt r := by
  unfold nOf at h
  have he : (0 : ℤ) < effW hgt r := by have := effW_ge hgt r; omega
  have heq : (0 : ℚ) < ((effW hgt r : ℤ) : ℚ) := by exact_mod_cast he
  have h2 := Int.ceil_le.mp h
  rw [div_le_iff heq] at h2
  have hq : (wid : ℚ) ≤ ((2 * effW hgt r : ℤ) : ℚ) := by
    push_cast
    push_cast at h2
    linarith
  exact_mod_cast hq

theorem two_lt_nOf {wid hgt : ℤ} {r : ℚ} (h : 2 < nOf wid hgt r) :
    2 * effW hgt r < wid := by
  unfold nOf at h
  have he : (0 : ℤ) < effW hgt r := by have := effW_ge hgt r; omega
  have heq : (0 : ℚ) < ((effW hgt r : ℤ) : ℚ) := by exact_mod_cast he
  have h2 := Int.lt_ceil.mp h
  rw [lt_div_iff heq] at h2
  have hq : ((2 * effW hgt r : ℤ) : ℚ) < (wid : ℚ) := by
    push_cast
    push_cast at h2
    linarith
  exact_mod_cast hq

theorem ratioSlices_empty_bound {sb : Span} {n : ℤ} (hn : 2 ≤ n)
    (hW : 0 ≤ sb.x2 - sb.x1) (hE : ratioSlices sb n = []) :
    sb.x2 - sb.x1 ≤ 304 * n := by
  by_contra hc
  push_neg at hc
  have hnq : (0 : ℚ) < ((n : ℤ) : ℚ) := by exact_mod_cast (show (0 : ℤ) < n by omega)
  have hlt : ((304 : ℤ) : ℚ) < ((sb.x2 - sb.x1 : ℤ) : ℚ) / ((n : ℤ) : ℚ) := by
    rw [lt_div_iff hnq]
    have hq : ((304 * n : ℤ) : ℚ) < ((sb.x2 - sb.x1 : ℤ) : ℚ) := by exact_mod_cast hc
    push_cast
    push_cast at hq
    linarith
  have h305 := Int.lt_ceil.mpr hlt
  unfold ratioSlices at hE
  exact evenSlices_ne_nil hn hW (by norm_num) (by omega) hE

theorem ratioSlices_nonempty_bound {sb : Span} {n : ℤ} (hn : 2 ≤ n)
    (hW : 0 ≤ sb.x2 - sb.x1) (hNE : ratioSlices sb n ≠ []) :
    304 * n < sb.x2 - sb.x1 := by
  by_contra hc
  push_neg at hc
  apply hNE
  unfold ratioSlices
  apply evenSlices_eq_nil hn hW (by norm_num)
  have hnq : (0 : ℚ) < ((n : ℤ) : ℚ) := by exact_mod_cast (show (0 : ℤ) < n by omega)
  have hle : ((sb.x2 - sb.x1 : ℤ) : ℚ) / ((n : ℤ) : ℚ) ≤ ((304 : ℤ) : ℚ) := by
    rw [div_le_iff hnq]
    have hq : ((sb.x2 - sb.x1 : ℤ) : ℚ) ≤ ((304 * n : ℤ) : ℚ) := by exact_mod_cast hc
    push_cast
    push_cast at hq
    linarith
  have h304 := Int.ceil_le.mpr hle
  omega

/-- In the parameter range of the ratio fallback (`450 < width ≤ 1000`), a
ratio whose partition survives the slice filter cannot be followed by a
larger ratio that qualifies on average width but whose partition is filtered
away: qualification pins the earlier ratio to 2 screens and the later to 3,
forcing the estimated widths to decrease along the ratio list, which is
impossible. -/
theorem qualify_empty_mono (sb : Span) {a b : ℚ} (ha : 0 < a) (hab : a ≤ b)
    (hW1 : 450 < sb.x2 - sb.x1) (hW2 : sb.x2 - sb.x1 ≤ 1000)
    (hQa : 300 ≤ avgOf (sb.x2 - sb.x1) (sb.y2 - sb.y1) a ∧
      avgOf (sb.x2 - sb.x1) (sb.y2 - sb.y1) a ≤ ((450 : ℤ) : ℚ) + 50)
    (hNEa : ratioSlices sb (nOf (sb.x2 - sb.x1) (sb.y2 - sb.y1) a) ≠ [])
    (hQb : 300 ≤ avgOf (sb.x2 - sb.x1) (sb.y2 - sb.y1) b ∧
      avgOf (sb.x2 - sb.x1) (sb.y2 - sb.y1) b ≤ ((450 : ℤ) : ℚ) + 50) :
    ratioSlices sb (nOf (sb.x2 - sb.x1) (sb.y2 - sb.y1) b) ≠ [] := by
  intro hEb
  have hw : (0 : ℤ) < sb.x2 - sb.x1 := by omega
  have hna1 := nOf_pos (sb.y2 - sb.y1) a hw
  have hnb1 := nOf_pos (sb.y2 - sb.y1) b hw
  have h300a := avg_lower hw hQa.1
  have h500a := avg_upper hw hQa.2
  have h300b := avg_lower hw hQb.1
  have h500b := avg_upper hw hQb.2
  have hnb2 : 2 ≤ nOf (sb.x2 - sb.x1) (sb.y2 - sb.y1) b := by
    by_contra hc
    have h1 : nOf (sb.x2 - sb.x1) (sb.y2 - sb.y1) b = 1 := by omega
    rw [h1] at hEb
    unfold ratioSlices at hEb
    rw [evenSlices_one, if_pos (show (300 : ℤ) ≤ sb.x2 - sb.x1 by omega)] at hEb
    exact absurd hEb (by simp)
  have h304b := ratioSlices_empty_bound hnb2 (by omega) hEb
  have hna2 : 2 ≤ nOf (sb.x2 - sb.x1) (sb.y2 - sb.y1) a := by
    by_contra hc
    have h1 : nOf (sb.x2 - sb.x1) (sb.y2 - sb.y1) a = 1 := by omega
    rw [h1] at h500a
    omega
  have h304a := ratioSlices_nonempty_bound hna2 (by omega) hNEa
  have hnb3 : nOf (sb.x2 - sb.x1) (sb.y2 - sb.y1) b = 3 := by omega
  have hna2e : nOf (sb.x2 - sb.x1) (sb.y2 - sb.y1) a = 2 := by omega
  have hWle : sb.x2 - sb.x1 ≤ 2 * effW (sb.y2 - sb.y1) a := nOf_le_two (by omega)
  have hWgt : 2 * effW (sb.y2 - sb.y1) b < sb.x2 - sb.x1 := two_lt_nOf (by omega)
  have hea450 : 450 ≤ effW (sb.y2 - sb.y1) a := by omega
  have hpa450 : 450 ≤ pyInt (((sb.y2 - sb.y1 : ℤ) : ℚ) * a) := by
    unfold effW at hea450
    split at hea450
    · omega
    · exact hea450
  have hea_eq : effW (sb.y2 - sb.y1) a = pyInt (((sb.y2 - sb.y1 : ℤ) : ℚ) * a) := by
    unfold effW
    rw [if_neg (by omega)]
  have hha : (0 : ℚ) ≤ ((sb.y2 - sb.y1 : ℤ) : ℚ) * a := by
    by_contra hc
    push_neg at hc
    have h0 : pyInt (((sb.y2 - sb.y1 : ℤ) : ℚ) * a) = ⌈((sb.y2 - sb.y1 : ℤ) : ℚ) * a⌉ := by
      unfold pyInt
      rw [if_neg (by linarith)]
    have h1 : ⌈((sb.y2 - sb.y1 : ℤ) : ℚ) * a⌉ ≤ 0 :=
      Int.ceil_le.mpr (by exact_mod_cast hc.le)
    omega
  have hfa : pyInt (((sb.y2 - sb.y1 : ℤ) : ℚ) * a) = ⌊((sb.y2 - sb.y1 : ℤ) : ℚ) * a⌋ :=
    pyInt_eq_floor hha
  have hH0 : (0 : ℚ) ≤ ((sb.y2 - sb.y1 : ℤ) : ℚ) := by
    by_contra hc
    push_neg at hc
    have hneg : ((sb.y2 - sb.y1 : ℤ) : ℚ) * a < 0 := mul_neg_of_neg_of_pos hc ha
    linarith
  have hmono : ((sb.y2 - sb.y1 : ℤ) : ℚ) * a ≤ ((sb.y2 - sb.y1 : ℤ) : ℚ) * b :=
    mul_le_mul_of_nonneg_left hab hH0
  have hhb : (0 : ℚ) ≤ ((sb.y2 - sb.y1 : ℤ) : ℚ) * b := le_trans hha hmono
  have hfb : pyInt (((sb.y2 - sb.y1 : ℤ) : ℚ) * b) = ⌊((sb.y2 - sb.y1 : ℤ) : ℚ) * b⌋ :=
    pyInt_eq_floor hhb
  have hfloorle : ⌊((sb.y2 - sb.y1 : ℤ) : ℚ) * a⌋ ≤ ⌊((sb.y2 - sb.y1 : ℤ) : ℚ) * b⌋ :=
    Int.floor_le_floor hmono
  have hpb450 : 450 ≤ pyInt (((sb.y2 - sb.y1 : ℤ) : ℚ) * b) := by omega
  have heb_eq : effW (sb.y2 - sb.y1) b = pyInt (((sb.y2 - sb.y1 : ℤ) : ℚ) * b) := by
    unfold effW
    rw [if_neg (by omega)]
  omega

/-- Invariant tying the `(best_uniformity, best_split)` state of the
`split_wide_screen` ratio scan to the spec-modelled `(uniformity,
num_screens)` accumulator: both track the same best uniformity, and
`best_split` holds exactly the slice list of the spec-selected ratio whenever
that list is nonempty, remaining `None` otherwise. -/
def ScanInv (sb : Span) (maxW : ℤ) (rs : List ℚ)
    (st : Option ℚ × Option (List Span)) (acc : Option (ℚ × ℤ)) : Prop :=
  st.1 = Option.map Prod.fst acc ∧
  (acc = none → st.2 = none) ∧
  ∀ bu n, acc = some (bu, n) →
    ((∀ x ∈ rs, ratioSlices sb n ≠ [] →
        (300 ≤ avgOf (sb.x2 - sb.x1) (sb.y2 - sb.y1) x ∧
          avgOf (sb.x2 - sb.x1) (sb.y2 - sb.y1) x ≤ (maxW : ℚ) + 50) →
        ratioSlices sb (nOf (sb.x2 - sb.x1) (sb.y2 - sb.y1) x) ≠ []) ∧
      ((ratioSlices sb n ≠ [] ∧ st.2 = some (ratioSlices sb n)) ∨
        (ratioSlices sb n = [] ∧ st.2 = none)))

theorem scanStep_none_pos (sb : Span) (maxW : ℤ) (s2 : Option (List Span)) (r : ℚ)
    (hQ : 300 ≤ avgOf (sb.x2 - sb.x1) (sb.y2 - sb.y1) r ∧
      avgOf (sb.x2 - sb.x1) (sb.y2 - sb.y1) r ≤ (maxW : ℚ) + 50) :
    scanStep sb maxW (none, s2) r =
      (some (uOf (sb.x2 - sb.x1) (sb.y2 - sb.y1) r),
        if ratioSlices sb (nOf (sb.x2 - sb.x1) (sb.y2 - sb.y1) r) = [] then s2
        else some (ratioSlices sb (nOf (sb.x2 - sb.x1) (sb.y2 - sb.y1) r))) := by
  unfold scanStep
  dsimp only
  split
  · rfl
  · next h =>
    exfalso
    apply h
    simp only [Bool.true_and, Bool.and_eq_true, decide_eq_true_eq]
    exact ⟨hQ.1, hQ.2⟩

theorem scanStep_some_pos (sb : Span) (maxW : ℤ) (bu : ℚ) (s2 : Option (List Span)) (r : ℚ)
    (hu : uOf (sb.x2 - sb.x1) (sb.y2 - sb.y1) r < bu)
    (hQ : 300 ≤ avgOf (sb.x2 - sb.x1) (sb.y2 - sb.y1) r ∧
      avgOf (sb.x2 - sb.x1) (sb.y2 - sb.y1) r ≤ (maxW : ℚ) + 50) :
    scanStep sb maxW (some bu, s2) r =
      (some (uOf (sb.x2 - sb.x1) (sb.y2 - sb.y1) r),
        if ratioSlices sb (nOf (sb.x2 - sb.x1) (sb.y2 - sb.y1) r) = [] then s2
        else some (ratioSlices sb (nOf (sb.x2 - sb.x1) (sb.y2 - sb.y1) r))) := by
  unfold scanStep
  dsimp only
  split
  · rfl
  · next h =>
    exfalso
    apply h
    simp only [Bool.and_eq_true, decide_eq_true_eq]
    exact ⟨⟨hu, hQ.1⟩, hQ.2⟩

theorem scanStep_neg (sb : Span) (maxW : ℤ) (s1 : Option ℚ) (s2 : Option (List Span))
    (r : ℚ)
    (hQ : ¬ (300 ≤ avgOf (sb.x2 - sb.x1) (sb.y2 - sb.y1) r ∧
      avgOf (sb.x2 - sb.x1) (sb.y2 - sb.y1) r ≤ (maxW : ℚ) + 50)) :
    scanStep sb maxW (s1, s2) r = (s1, s2) := by
  unfold scanStep
  dsimp only
  split
  · next h =>
    exfalso
    simp only [Bool.and_eq_true, decide_eq_true_eq] at h
    exact hQ ⟨h.1.2, h.2⟩
  · rfl

theorem scanStep_some_nlt (sb : Span) (maxW : ℤ) (bu : ℚ) (s2 : Option (List Span))
    (r : ℚ) (hu : ¬ uOf (sb.x2 - sb.x1) (sb.y2 - sb.y1) r < bu) :
    scanStep sb maxW (some bu, s2) r = (some bu, s2) := by
  unfold scanStep
  dsimp only
  split
  · next h =>
    exfalso
    simp only [Bool.and_eq_true, decide_eq_true_eq] at h
    exact hu h.1.1
  · rfl

theorem specStep_none_pos (wid hgt maxW : ℤ) (r : ℚ)
    (hQ : 300 ≤ avgOf wid hgt r ∧ avgOf wid hgt r ≤ (maxW : ℚ) + 50) :
    specStep wid hgt maxW none r = some (uOf wid hgt r, nOf wid hgt r) := by
  unfold specStep
  rw [if_pos hQ]

theorem specStep_some_lt (wid hgt maxW : ℤ) (bu : ℚ) (n : ℤ) (r : ℚ)
    (hQ : 300 ≤ avgOf wid hgt r ∧ avgOf wid hgt r ≤ (maxW : ℚ) + 50)
    (hu : uOf wid hgt r < bu) :
    specStep wid hgt maxW (some (bu, n)) r = some (uOf wid hgt r, nOf wid hgt r) := by
  unfold specStep
  rw [if_pos hQ]
  dsimp only
  rw [if_pos hu]

theorem specStep_some_nlt (wid hgt maxW : ℤ) (bu : ℚ) (n : ℤ) (r : ℚ)
    (hQ : 300 ≤ avgOf wid hgt r ∧ avgOf wid hgt r ≤ (maxW : ℚ) + 50)
    (hu : ¬ uOf wid hgt r < bu) :
    specStep wid hgt maxW (some (bu, n)) r = some (bu, n) := by
  unfold specStep
  rw [if_pos hQ]
  dsimp only
  rw [if_neg hu]

theorem specStep_neg (wid hgt maxW : ℤ) (acc : Option (ℚ × ℤ)) (r : ℚ)
    (hQ : ¬ (300 ≤ avgOf wid hgt r ∧ avgOf wid hgt r ≤ (maxW : ℚ) + 50)) :
    specStep wid hgt maxW acc r = acc := by
  unfold specStep
  rw [if_neg hQ]

theorem scanStep_inv (sb : Span) (maxW : ℤ) (r : ℚ) (rs : List ℚ)
    (st : Option ℚ × Option (List Span)) (acc : Option (ℚ × ℤ))
    (hrel : ∀ x ∈ rs,
      (300 ≤ avgOf (sb.x2 - sb.x1) (sb.y2 - sb.y1) r ∧
        avgOf (sb.x2 - sb.x1) (sb.y2 - sb.y1) r ≤ (maxW : ℚ) + 50) →
      ratioSlices sb (nOf (sb.x2 - sb.x1) (sb.y2 - sb.y1) r) ≠ [] →
      (300 ≤ avgOf (sb.x2 - sb.x1) (sb.y2 - sb.y1) x ∧
        avgOf (sb.x2 - sb.x1) (sb.y2 - sb.y1) x ≤ (maxW : ℚ) + 50) →
      ratioSlices sb (nOf (sb.x2 - sb.x1) (sb.y2 - sb.y1) x) ≠ [])
    (hinv : ScanInv sb maxW (r :: rs) st acc) :
    ScanInv sb maxW rs (scanStep sb maxW st r)
      (specStep (sb.x2 - sb.x1) (sb.y2 - sb.y1) maxW acc r) := by
  obtain ⟨h1, h2, h3⟩ := hinv
  obtain ⟨s1, s2⟩ := st
  by_cases hQ : 300 ≤ avgOf (sb.x2 - sb.x1) (sb.y2 - sb.y1) r ∧
      avgOf (sb.x2 - sb.x1) (sb.y2 - sb.y1) r ≤ (maxW : ℚ) + 50
  · rcases acc with _ | ⟨bu, n⟩
    · have hs1 : s1 = none := by simpa using h1
      have hs2 : s2 = none := h2 rfl
      subst hs1
      subst hs2
      rw [scanStep_none_pos sb maxW none r hQ,
        specStep_none_pos (sb.x2 - sb.x1) (sb.y2 - sb.y1) maxW r hQ]
      refine ⟨rfl, by simp, ?_⟩
      intro bu' n' h
      rw [Option.some.injEq, Prod.mk.injEq] at h
      obtain ⟨hbu, hn⟩ := h
      subst hbu
      subst hn
      constructor
      · intro x hx hNE hQx
        exact hrel x hx hQ hNE hQx
      · by_cases hE : ratioSlices sb (nOf (sb.x2 - sb.x1) (sb.y2 - sb.y1) r) = []
        · right
          exact ⟨hE, by rw [if_pos hE]⟩
        · left
          exact ⟨hE, by rw [if_neg hE]⟩
    · have hs1 : s1 = some bu := by simpa using h1
      subst hs1
      obtain ⟨hall, hdisj⟩ := h3 bu n rfl
      by_cases hu : uOf (sb.x2 - sb.x1) (sb.y2 - sb.y1) r < bu
      · rw [scanStep_some_pos sb maxW bu s2 r hu hQ,
          specStep_some_lt (sb.x2 - sb.x1) (sb.y2 - sb.y1) maxW bu n r hQ hu]
        refine ⟨rfl, by simp, ?_⟩
        intro bu' n' h
        rw [Option.some.injEq, Prod.mk.injEq] at h
        obtain ⟨hbu, hn⟩ := h
        subst hbu
        subst hn
        constructor
        · intro x hx hNE hQx
          exact hrel x hx hQ hNE hQx
        · by_cases hE : ratioSlices sb (nOf (sb.x2 - sb.x1) (sb.y2 - sb.y1) r) = []
          · right
            refine ⟨hE, ?_⟩
            rw [if_pos hE]
            rcases hdisj with ⟨hNEn, hs2⟩ | ⟨hEn, hs2⟩
            · exact absurd hE (hall r (List.mem_cons_self r rs) hNEn hQ)
            · exact hs2
          · left
            exact ⟨hE, by rw [if_neg hE]⟩
      · rw [scanStep_some_nlt sb maxW bu s2 r hu,
          specStep_some_nlt (sb.x2 - sb.x1) (sb.y2 - sb.y1) maxW bu n r hQ hu]
        refine ⟨rfl, by simp, ?_⟩
        intro bu' n' h
        rw [Option.some.injEq, Prod.mk.injEq] at h
        obtain ⟨hbu, hn⟩ := h
        subst hbu
        subst hn
        exact ⟨fun x hx => hall x (List.mem_cons_of_mem r hx), hdisj⟩
  · rw [scanStep_neg sb maxW s1 s2 r hQ,
      specStep_neg (sb.x2 - sb.x1) (sb.y2 - sb.y1) maxW acc r hQ]
    refine ⟨h1, h2, ?_⟩
    intro bu n h
    obtain ⟨hall, hdisj⟩ := h3 bu n h
    exact ⟨fun x hx => hall x (List.mem_cons_of_mem r hx), hdisj⟩

theorem scanFold_inv (sb : Span) (maxW : ℤ) :
    ∀ (rs : List ℚ) (st : Option ℚ × Option (List Span)) (acc : Option (ℚ × ℤ)),
      List.Pairwise (fun a b =>
        (300 ≤ avgOf (sb.x2 - sb.x1) (sb.y2 - sb.y1) a ∧
          avgOf (sb.x2 - sb.x1) (sb.y2 - sb.y1) a ≤ (maxW : ℚ) + 50) →
        ratioSlices sb (nOf (sb.x2 - sb.x1) (sb.y2 - sb.y1) a) ≠ [] →
        (300 ≤ avgOf (sb.x2 - sb.x1) (sb.y2 - sb.y1) b ∧
          avgOf (sb.x2 - sb.x1) (sb.y2 - sb.y1) b ≤ (maxW : ℚ) + 50) →
        ratioSlices sb (nOf (sb.x2 - sb.x1) (sb.y2 - sb.y1) b) ≠ []) rs →
      ScanInv sb maxW rs st acc →
      ScanInv sb maxW [] (rs.foldl (scanStep sb maxW) st)
        (rs.foldl (specStep (sb.x2 - sb.x1) (sb.y2 - sb.y1) maxW) acc) := by
  intro rs
  induction rs with
  | nil => exact fun st acc _ h => h
  | cons r rest ih =>
    intro st acc hpw hinv
    rw [List.pairwise_cons] at hpw
    exact ih (scanStep sb maxW st r)
      (specStep (sb.x2 - sb.x1) (sb.y2 - sb.y1) maxW acc r) hpw.2
      (scanStep_inv sb maxW r rest st acc hpw.1 hinv)

/-- In the range `450 < width ≤ 1000`, the scan of `split_wide_screen` with
its deferred `best_split` update agrees with the spec-described selection:
the partition of the smallest-uniformity qualifying ratio, or the original
span when no ratio qualifies or the selected partition is filtered away. -/
theorem ratioFallback_eq_spec (sb : Span)
    (hW1 : 450 < sb.x2 - sb.x1) (hW2 : sb.x2 - sb.x1 ≤ 1000) :
    ratioFallback sb 450 = ratioFallbackSpec sb 450 := by
  have hpw : List.Pairwise (fun a b =>
      (300 ≤ avgOf (sb.x2 - sb.x1) (sb.y2 - sb.y1) a ∧
        avgOf (sb.x2 - sb.x1) (sb.y2 - sb.y1) a ≤ ((450 : ℤ) : ℚ) + 50) →
      ratioSlices sb (nOf (sb.x2 - sb.x1) (sb.y2 - sb.y1) a) ≠ [] →
      (300 ≤ avgOf (sb.x2 - sb.x1) (sb.y2 - sb.y1) b ∧
        avgOf (sb.x2 - sb.x1) (sb.y2 - sb.y1) b ≤ ((450 : ℤ) : ℚ) + 50) →
      ratioSlices sb (nOf (sb.x2 - sb.x1) (sb.y2 - sb.y1) b) ≠ []) ratios3 := by
    unfold ratios3
    refine List.Pairwise.cons ?_ (List.Pairwise.cons ?_ (List.pairwise_singleton _ _))
    · intro x hx
      rcases List.mem_cons.mp hx with hx1 | hx2
      · subst hx1
        exact fun hQa hNEa hQb =>
          qualify_empty_mono sb (by norm_num) (by norm_num) hW1 hW2 hQa hNEa hQb
      · rw [List.mem_singleton] at hx2
        subst hx2
        exact fun hQa hNEa hQb =>
          qualify_empty_mono sb (by norm_num) (by norm_num) hW1 hW2 hQa hNEa hQb
    · intro x hx
      rw [List.mem_singleton] at hx
      subst hx
      exact fun hQa hNEa hQb =>
        qualify_empty_mono sb (by norm_num) (by norm_num) hW1 hW2 hQa hNEa hQb
  have hinv0 : ScanInv sb 450 ratios3 (none, none) none :=
    ⟨rfl, fun _ => rfl, fun bu n h => by simp at h⟩
  obtain ⟨hf1, hf2, hf3⟩ := scanFold_inv sb 450 ratios3 (none, none) none hpw hinv0
  unfold ratioFallback ratioFallbackSpec specBest
  rcases hacc : List.foldl (specStep (sb.x2 - sb.x1) (sb.y2 - sb.y1) 450) none ratios3
      with _ | ⟨bu, n⟩
  · rw [hf2 hacc]
    rfl
  · obtain ⟨-, hdisj⟩ := hf3 bu n hacc
    dsimp only
    rcases hdisj with ⟨hNE, hs2⟩ | ⟨hE, hs2⟩
    · rw [hs2, if_neg hNE]
      rfl
    · rw [hs2, if_pos hE]
      rfl

/-- C5: for a span of width in `(450, 1000]` with fewer than two qualifying
recursive sub-detections, `split_wide_screen` returns the partition of the
ratio with the smallest uniformity score among those whose average slice
width lies in `[300, 500]` (first-seen ratio winning exact ties), or the
original span unchanged when no ratio qualifies or the selected partition
yields no slice of width at least 300. -/
theorem c5_ratio_selection (sb : Span) (img : Img)
    (hW1 : 450 < sb.x2 - sb.x1) (hW2 : sb.x2 - sb.x1 ≤ 1000)
    (hsub : (absoluteScreens sb img 450).length < 2) :
    splitWide sb img 450 = ratioFallbackSpec sb 450 := by
  unfold splitWide
  rw [if_neg (by omega), if_neg (by omega), if_neg (by omega)]
  exact ratioFallback_eq_spec sb hW1 hW2

/-- Witness for C5 at the zero-height span `(0, 0, 460, 0)` over a 1-by-1
buffer: the recursive sub-detection yields no qualifying screens, every ratio
falls back to the substituted estimate 380 with average width 230 below 300,
and the span is returned unchanged. -/
theorem c5_witness :
    ((450 : ℤ) < (Span.mk 0 0 460 0).x2 - (Span.mk 0 0 460 0).x1) ∧
    ((Span.mk 0 0 460 0).x2 - (Span.mk 0 0 460 0).x1 ≤ 1000) ∧
    (absoluteScreens (Span.mk 0 0 460 0) (Img.mk 1 1 fun _ _ => 0) 450).length < 2 ∧
    splitWide (Span.mk 0 0 460 0) (Img.mk 1 1 fun _ _ => 0) 450 =
      ratioFallbackSpec (Span.mk 0 0 460 0) 450 := by
  have habs : absoluteScreens (Span.mk 0 0 460 0) (Img.mk 1 1 fun _ _ => 0) 450 = [] := by
    unfold absoluteScreens
    rw [detect_zero_height (by rfl)]
    rfl
  refine ⟨by norm_num, by norm_num, ?_, ?_⟩
  · rw [habs]
    simp
  · exact c5_ratio_selection (Span.mk 0 0 460 0) (Img.mk 1 1 fun _ _ => 0)
      (by norm_num) (by norm_num) (by rw [habs]; simp)

/-!  ### Claim C1: the counterexample buffer  -/

/-- The C1 counterexample buffer: 938 wide, 1000 tall, with 12px-wide white
gutters on the left and right, 230-valued frame rows at the top and bottom,
and 100-valued content elsewhere.  Detection finds one 920-wide screen whose
ratio fallback splits it into two 455-wide slices. -/
def ctrImg : Img :=
  ⟨1000, 938, fun r c =>
    if c < 12 ∨ 926 ≤ c then 255 else if r = 0 ∨ 998 ≤ r then 230 else 100⟩

theorem ctr_card3 : ((Finset.range 1000).filter fun r => r = 0 ∨ 998 ≤ r).card = 3 := by
  rw [show ((Finset.range 1000).filter fun r => r = 0 ∨ 998 ≤ r) =
      ({0, 998, 999} : Finset ℕ) from by
    apply Finset.ext
    intro a
    simp only [Finset.mem_filter, Finset.mem_range, Finset.mem_insert, Finset.mem_singleton]
    omega]
  decide

theorem ctr_card997 : ((Finset.range 1000).filter fun r => ¬(r = 0 ∨ 998 ≤ r)).card = 997 := by
  rw [show ((Finset.range 1000).filter fun r => ¬(r = 0 ∨ 998 ≤ r)) =
      Finset.Ico 1 998 from by
    apply Finset.ext
    intro a
    simp only [Finset.mem_filter, Finset.mem_range, Finset.mem_Ico]
    omega]
  rw [Nat.card_Ico]

theorem ctr_gap (c : ℕ) : isGapCol ctrImg c = decide (c < 12 ∨ 926 ≤ c) := by
  by_cases hc : c < 12 ∨ 926 ≤ c
  · have hmean : colMean ctrImg c = 255 := by
      unfold colMean ctrImg
      dsimp only
      rw [Finset.sum_congr rfl fun r _ => if_pos hc]
      rw [Finset.sum_const, Finset.card_range]
      norm_num
    unfold isGapCol
    rw [hmean]
    rw [decide_eq_true (show (240 : ℚ) < 255 by norm_num), decide_eq_true hc]
    simp
  · have hsum : (∑ r in Finset.range ctrImg.h, ctrImg.pix r c) = 100390 := by
      unfold ctrImg
      dsimp only
      rw [Finset.sum_congr rfl fun r _ => if_neg hc]
      rw [Finset.sum_ite, Finset.sum_const, Finset.sum_const, ctr_card3, ctr_card997]
      norm_num
    have hsq : (∑ r in Finset.range ctrImg.h, ctrImg.pix r c ^ 2) = 10128700 := by
      unfold ctrImg
      dsimp only
      rw [Finset.sum_congr rfl fun r _ =>
        show (if c < 12 ∨ 926 ≤ c then (255 : ℚ) else if r = 0 ∨ 998 ≤ r then 230 else 100)
              ^ 2 = (if r = 0 ∨ 998 ≤ r then (52900 : ℚ) else 10000) from by
          rw [if_neg hc]
          split <;> norm_num]
      rw [Finset.sum_ite, Finset.sum_const, Finset.sum_const, ctr_card3, ctr_card997]
      norm_num
    have hmean : colMean ctrImg c = 10039/100 := by
      unfold colMean
      rw [hsum]
      norm_num [ctrImg]
    have hvar : colVar ctrImg c = 505479/10000 := by
      unfold colVar colSqMean
      rw [hsq, hmean]
      norm_num [ctrImg]
    unfold isGapCol
    rw [hmean, hvar]
    rw [decide_eq_false (show ¬ (505479 : ℚ)/10000 < 25 by norm_num),
      decide_eq_false (show ¬ (240 : ℚ) < 10039/100 by norm_num),
      decide_eq_false (show ¬ (10039 : ℚ)/100 < 15 by norm_num),
      decide_eq_false hc]
    rfl

theorem ctr_count : ∀ c : ℕ, c < 938 →
    (decide (9 ≤ ((Finset.range 10).filter fun (k : ℕ) =>
      reflectIdx 938 ((c : ℤ) - 5 + k) < 12 ∨
        926 ≤ reflectIdx 938 ((c : ℤ) - 5 + k)).card) = decide (c ≤ 8 ∨ 930 ≤ c)) := by
  decide

theorem ctr_smoothed : ∀ c : ℕ, c < 938 →
    smoothedAt ctrImg c = decide (c ≤ 8 ∨ 930 ≤ c) := by
  intro c hc
  rw [smoothedAt_count]
  rw [show ((Finset.range 10).filter fun (k : ℕ) =>
      isGapCol ctrImg (reflectIdx ctrImg.w ((c : ℤ) - 5 + k)) = true) =
      ((Finset.range 10).filter fun (k : ℕ) =>
        reflectIdx 938 ((c : ℤ) - 5 + k) < 12 ∨
          926 ≤ reflectIdx 938 ((c : ℤ) - 5 + k)) from
    Finset.filter_congr fun k _ => by
      rw [ctr_gap]
      simp only [decide_eq_true_eq]
      exact Iff.rfl]
  exact ctr_count c hc

theorem ctr_starts : startsRaw ctrImg = [9] := by
  unfold startsRaw
  rw [show ctrImg.w - 1 = 937 from rfl]
  rw [filter_range_eq_single (k := 8) (by omega) ?h]
  · rfl
  case h =>
    intro j hj
    rw [ctr_smoothed j (by omega), ctr_smoothed (j + 1) (by omega)]
    simp only [Bool.and_eq_true, Bool.not_eq_true', decide_eq_true_eq,
      decide_eq_false_iff_not]
    omega

theorem ctr_ends : endsRaw ctrImg = [929] := by
  unfold endsRaw
  rw [show ctrImg.w - 1 = 937 from rfl]
  rw [filter_range_eq_single (k := 929) (by omega) ?h]
  · rfl
  case h =>
    intro j hj
    rw [ctr_smoothed j (by omega), ctr_smoothed (j + 1) (by omega)]
    simp only [Bool.and_eq_true, Bool.not_eq_true', decide_eq_true_eq,
      decide_eq_false_iff_not]
    omega

theorem ctr_pairs : detectPairs ctrImg = [(9, 929)] := by
  have hs0 : smoothedAt ctrImg 0 = true := by
    rw [ctr_smoothed 0 (by omega)]
    decide
  have hs937 : smoothedAt ctrImg (ctrImg.w - 1) = true := by
    rw [show ctrImg.w - 1 = 937 from rfl]
    rw [ctr_smoothed 937 (by omega)]
    decide
  unfold detectPairs screenStarts screenEnds
  rw [ctr_starts, ctr_ends]
  rw [if_neg (by simp [hs0]), if_neg (by simp [hs0]), if_neg (by simp [hs937]),
    if_neg (by simp [hs937])]
  rfl

theorem ctr_card6 : ((Finset.Ico 9 929).filter fun c => c < 12 ∨ 926 ≤ c).card = 6 := by
  rw [show ((Finset.Ico 9 929).filter fun c => c < 12 ∨ 926 ≤ c) =
      ({9, 10, 11, 926, 927, 928} : Finset ℕ) from by
    apply Finset.ext
    intro a
    simp only [Finset.mem_filter, Finset.mem_Ico, Finset.mem_insert, Finset.mem_singleton]
    omega]
  decide

theorem ctr_card914 : ((Finset.Ico 9 929).filter fun c => ¬(c < 12 ∨ 926 ≤ c)).card = 914 := by
  rw [show ((Finset.Ico 9 929).filter fun c => ¬(c < 12 ∨ 926 ≤ c)) =
      Finset.Ico 12 926 from by
    apply Finset.ext
    intro a
    simp only [Finset.mem_filter, Finset.mem_Ico]
    omega]
  rw [Nat.card_Ico]

theorem ctr_rowvar_edge (r : ℕ) (hr : r = 0 ∨ 998 ≤ r) :
    rowVar ctrImg 9 929 r = 34275/8464 := by
  have hsum : (∑ c in Finset.Ico (9 : ℤ).toNat (929 : ℤ).toNat, ctrImg.pix r c) =
      211750 := by
    unfold ctrImg
    dsimp only
    rw [show (9 : ℤ).toNat = 9 from rfl, show (929 : ℤ).toNat = 929 from rfl]
    rw [Finset.sum_congr rfl fun c _ =>
      show (if c < 12 ∨ 926 ≤ c then (255 : ℚ) else if r = 0 ∨ 998 ≤ r then 230 else 100) =
          (if c < 12 ∨ 926 ≤ c then (255 : ℚ) else 230) from by
        by_cases h : c < 12 ∨ 926 ≤ c
        · rw [if_pos h, if_pos h]
        · rw [if_neg h, if_neg h, if_pos hr]]
    rw [Finset.sum_ite, Finset.sum_const, Finset.sum_const, ctr_card6, ctr_card914]
    norm_num
  have hsq : (∑ c in Finset.Ico (9 : ℤ).toNat (929 : ℤ).toNat, ctrImg.pix r c ^ 2) =
      48740750 := by
    unfold ctrImg
    dsimp only
    rw [show (9 : ℤ).toNat = 9 from rfl, show (929 : ℤ).toNat = 929 from rfl]
    rw [Finset.sum_congr rfl fun c _ =>
      show (if c < 12 ∨ 926 ≤ c then (255 : ℚ) else if r = 0 ∨ 998 ≤ r then 230 else 100)
            ^ 2 = (if c < 12 ∨ 926 ≤ c then (65025 : ℚ) else 52900) from by
        by_cases h : c < 12 ∨ 926 ≤ c
        · rw [if_pos h, if_pos h]
          norm_num
        · rw [if_neg h, if_neg h, if_pos hr]
          norm_num]
    rw [Finset.sum_ite, Finset.sum_const, Finset.sum_const, ctr_card6, ctr_card914]
    norm_num
  unfold rowVar rowSqMean rowMean
  rw [hsum, hsq]
  norm_num

theorem ctr_rowvar_content (r : ℕ) (hr : ¬(r = 0 ∨ 998 ≤ r)) :
    rowVar ctrImg 9 929 r = 1317531/8464 := by
  have hsum : (∑ c in Finset.Ico (9 : ℤ).toNat (929 : ℤ).toNat, ctrImg.pix r c) =
      92930 := by
    unfold ctrImg
    dsimp only
    rw [show (9 : ℤ).toNat = 9 from rfl, show (929 : ℤ).toNat = 929 from rfl]
    rw [Finset.sum_congr rfl fun c _ =>
      show (if c < 12 ∨ 926 ≤ c then (255 : ℚ) else if r = 0 ∨ 998 ≤ r then 230 else 100) =
          (if c < 12 ∨ 926 ≤ c then (255 : ℚ) else 100) from by
        by_cases h : c < 12 ∨ 926 ≤ c
        · rw [if_pos h, if_pos h]
        · rw [if_neg h, if_neg h, if_neg hr]]
    rw [Finset.sum_ite, Finset.sum_const, Finset.sum_const, ctr_card6, ctr_card914]
    norm_num
  have hsq : (∑ c in Finset.Ico (9 : ℤ).toNat (929 : ℤ).toNat, ctrImg.pix r c ^ 2) =
      9530150 := by
    unfold ctrImg
    dsimp only
    rw [show (9 : ℤ).toNat = 9 from rfl, show (929 : ℤ).toNat = 929 from rfl]
    rw [Finset.sum_congr rfl fun c _ =>
      show (if c < 12 ∨ 926 ≤ c then (255 : ℚ) else if r = 0 ∨ 998 ≤ r then 230 else 100)
            ^ 2 = (if c < 12 ∨ 926 ≤ c then (65025 : ℚ) else 10000) from by
        by_cases h : c < 12 ∨ 926 ≤ c
        · rw [if_pos h, if_pos h]
          norm_num
        · rw [if_neg h, if_neg h, if_neg hr]
          norm_num]
    rw [Finset.sum_ite, Finset.sum_const, Finset.sum_const, ctr_card6, ctr_card914]
    norm_num
  unfold rowVar rowSqMean rowMean
  rw [hsum, hsq]
  norm_num

theorem ctr_content : contentRows ctrImg 9 929 = Finset.Ico 1 998 := by
  unfold contentRows
  rw [show ctrImg.h = 1000 from rfl]
  apply Finset.ext
  intro r
  simp only [Finset.mem_filter, Finset.mem_range, Finset.mem_Ico]
  constructor
  · rintro ⟨hr, hvar⟩
    by_contra hc
    have hedge : r = 0 ∨ 998 ≤ r := by omega
    rw [ctr_rowvar_edge r hedge] at hvar
    norm_num at hvar
  · intro hr
    refine ⟨by omega, ?_⟩
    rw [ctr_rowvar_content r (by omega)]
    norm_num

theorem ctr_min_max : ∀ h : (Finset.Ico 1 998 : Finset ℕ).Nonempty,
    (Finset.Ico 1 998 : Finset ℕ).min' h = 1 ∧ (Finset.Ico 1 998 : Finset ℕ).max' h = 997 := by
  intro h
  constructor
  · apply le_antisymm
    · exact Finset.min'_le _ _ (by decide)
    · apply Finset.le_min'
      intro y hy
      have := Finset.mem_Ico.mp hy
      omega
  · apply le_antisymm
    · apply Finset.max'_le
      intro y hy
      have := Finset.mem_Ico.mp hy
      omega
    · exact Finset.le_max' _ _ (by decide)

theorem ctr_pairSpan : pairSpan ctrImg 300 (9, 929) = some (Span.mk 9 0 929 999) := by
  unfold pairSpan
  dsimp only
  rw [if_pos (by norm_num : (300 : ℤ) ≤ 929 - 9)]
  simp only [ctr_content]
  have hne : (Finset.Ico 1 998 : Finset ℕ).Nonempty := ⟨1, by decide⟩
  rw [dif_pos hne]
  obtain ⟨hmin, hmax⟩ := ctr_min_max hne
  rw [hmin, hmax]
  norm_num [ctrImg]

theorem ctr_detect : detect ctrImg 300 = [Span.mk 9 0 929 999] := by
  have hscreens : detectScreens ctrImg 300 = [Span.mk 9 0 929 999] := by
    unfold detectScreens
    rw [ctr_pairs]
    rw [List.filterMap_cons, ctr_pairSpan, List.filterMap_nil]
  unfold detect
  rw [ctr_starts]
  rw [if_neg (by simp), hscreens, if_neg (by simp)]

/-- The sub-buffer `img_array[0:999, 9:929]` that the recursive call of
`split_wide_screen` examines. -/
def subCtr : Img := subImg ctrImg (Span.mk 9 0 929 999)

theorem subCtr_pix (r c : ℕ) : subCtr.pix r c =
    (if c + 9 < 12 ∨ 926 ≤ c + 9 then (255 : ℚ)
      else if r = 0 ∨ 998 ≤ r then 230 else 100) := rfl

theorem sub_card2 : ((Finset.range 999).filter fun r => r = 0 ∨ 998 ≤ r).card = 2 := by
  rw [show ((Finset.range 999).filter fun r => r = 0 ∨ 998 ≤ r) =
      ({0, 998} : Finset ℕ) from by
    apply Finset.ext
    intro a
    simp only [Finset.mem_filter, Finset.mem_range, Finset.mem_insert, Finset.mem_singleton]
    omega]
  decide

theorem sub_card997 : ((Finset.range 999).filter fun r => ¬(r = 0 ∨ 998 ≤ r)).card = 997 := by
  rw [show ((Finset.range 999).filter fun r => ¬(r = 0 ∨ 998 ≤ r)) =
      Finset.Ico 1 998 from by
    apply Finset.ext
    intro a
    simp only [Finset.mem_filter, Finset.mem_range, Finset.mem_Ico]
    omega]
  rw [Nat.card_Ico]

theorem sub_gap (c : ℕ) : isGapCol subCtr c = decide (c < 3 ∨ 917 ≤ c) := by
  by_cases hc : c < 3 ∨ 917 ≤ c
  · have hc' : c + 9 < 12 ∨ 926 ≤ c + 9 := by omega
    have hmean : colMean subCtr c = 255 := by
      unfold colMean
      rw [show subCtr.h = 999 from rfl]
      rw [Finset.sum_congr rfl fun r _ => by rw [subCtr_pix r c, if_pos hc']]
      rw [Finset.sum_const, Finset.card_range]
      norm_num
    unfold isGapCol
    rw [hmean]
    rw [decide_eq_true (show (240 : ℚ) < 255 by norm_num), decide_eq_true hc]
    simp
  · have hc' : ¬(c + 9 < 12 ∨ 926 ≤ c + 9) := by omega
    have hsum : (∑ r in Finset.range 999, subCtr.pix r c) = 100160 := by
      rw [Finset.sum_congr rfl fun r _ =>
        show subCtr.pix r c = (if r = 0 ∨ 998 ≤ r then (230 : ℚ) else 100) from by
          rw [subCtr_pix r c, if_neg hc']]
      rw [Finset.sum_ite, Finset.sum_const, Finset.sum_const, sub_card2, sub_card997]
      norm_num
    have hsq : (∑ r in Finset.range 999, subCtr.pix r c ^ 2) = 10075800 := by
      rw [Finset.sum_congr rfl fun r _ =>
        show subCtr.pix r c ^ 2 = (if r = 0 ∨ 998 ≤ r then (52900 : ℚ) else 10000) from by
          rw [subCtr_pix r c, if_neg hc']
          split <;> norm_num]
      rw [Finset.sum_ite, Finset.sum_const, Finset.sum_const, sub_card2, sub_card997]
      norm_num
    have hmean : colMean subCtr c = 100160/999 := by
      unfold colMean
      rw [show subCtr.h = 999 from rfl, hsum]
      norm_num
    have hvar : colVar subCtr c = 33698600/998001 := by
      unfold colVar colSqMean
      rw [show subCtr.h = 999 from rfl, hsq, hmean]
      norm_num
    unfold isGapCol
    rw [hmean, hvar]
    rw [decide_eq_false (show ¬ (33698600 : ℚ)/998001 < 25 by norm_num),
      decide_eq_false (show ¬ (240 : ℚ) < 100160/999 by norm_num),
      decide_eq_false (show ¬ (100160 : ℚ)/999 < 15 by norm_num),
      decide_eq_false hc]
    rfl

theorem sub_count : ∀ c : ℕ, c < 920 →
    (decide (9 ≤ ((Finset.range 10).filter fun (k : ℕ) =>
      reflectIdx 920 ((c : ℤ) - 5 + k) < 3 ∨
        917 ≤ reflectIdx 920 ((c : ℤ) - 5 + k)).card) = false) := by
  decide

theorem sub_smoothed : ∀ c : ℕ, c < 920 → smoothedAt subCtr c = false := by
  intro c hc
  rw [smoothedAt_count]
  rw [show ((Finset.range 10).filter fun (k : ℕ) =>
      isGapCol subCtr (reflectIdx subCtr.w ((c : ℤ) - 5 + k)) = true) =
      ((Finset.range 10).filter fun (k : ℕ) =>
        reflectIdx 920 ((c : ℤ) - 5 + k) < 3 ∨
          917 ≤ reflectIdx 920 ((c : ℤ) - 5 + k)) from
    Finset.filter_congr fun k _ => by
      rw [sub_gap]
      simp only [decide_eq_true_eq]
      exact Iff.rfl]
  exact sub_count c hc

theorem sub_starts : startsRaw subCtr = [] := by
  unfold startsRaw
  rw [show subCtr.w - 1 = 919 from rfl]
  rw [List.filter_eq_nil_iff.mpr ?h]
  · rfl
  case h =>
    intro j hj
    have hjr := List.mem_range.mp hj
    rw [sub_smoothed j (by omega), sub_smoothed (j + 1) (by omega)]
    simp

theorem sub_ends : endsRaw subCtr = [] := by
  unfold endsRaw
  rw [show subCtr.w - 1 = 919 from rfl]
  rw [List.filter_eq_nil_iff.mpr ?h]
  · rfl
  case h =>
    intro j hj
    have hjr := List.mem_range.mp hj
    rw [sub_smoothed j (by omega), sub_smoothed (j + 1) (by omega)]
    simp

theorem sub_detect : detect subCtr 300 = [Span.mk 0 0 919 998] := by
  have e1 : pyInt (((999 : ℤ) : ℚ) * (6/13)) = 461 :=
    pyInt_eval (by norm_num) (by norm_num) (by norm_num)
  have e2 : pyInt (((999 : ℤ) : ℚ) * (9/16)) = 561 :=
    pyInt_eval (by norm_num) (by norm_num) (by norm_num)
  have e3 : pyInt (((999 : ℤ) : ℚ) * (5/8)) = 624 :=
    pyInt_eval (by norm_num) (by norm_num) (by norm_num)
  have e4 : pyInt (((999 : ℤ) : ℚ) * (3/4)) = 749 :=
    pyInt_eval (by norm_num) (by norm_num) (by norm_num)
  have step : ∀ (r : ℚ) (rest : List ℚ) (e : ℤ), pyInt (((999 : ℤ) : ℚ) * r) = e →
      ¬(300 ≤ e ∧ 2 ≤ (920 : ℤ) / e) →
      aspectLoop 999 920 300 (r :: rest) = aspectLoop 999 920 300 rest := by
    intro r rest e he hne
    unfold aspectLoop
    rw [he, if_neg hne]
    cases rest <;> rfl
  have hloop : aspectLoop 999 920 300 ratios4 = [] := by
    unfold ratios4
    rw [step _ _ _ e1 (by decide), step _ _ _ e2 (by decide), step _ _ _ e3 (by decide),
      step _ _ _ e4 (by decide)]
    rfl
  unfold detect
  rw [sub_starts, sub_ends, if_pos ⟨rfl, rfl⟩]
  rw [show ((subCtr.h : ℤ)) = 999 from rfl, show ((subCtr.w : ℤ)) = 920 from rfl]
  unfold aspect
  rw [hloop, if_pos rfl]
  decide

theorem ctr_abs : absoluteScreens (Span.mk 9 0 929 999) ctrImg 450 = [] := by
  unfold absoluteScreens
  rw [show subImg ctrImg (Span.mk 9 0 929 999) = subCtr from rfl, sub_detect]
  rfl

theorem ctr_eff1 : effW 999 (6/13) = 461 := by
  have h : pyInt (((999 : ℤ) : ℚ) * (6/13)) = 461 :=
    pyInt_eval (by norm_num) (by norm_num) (by norm_num)
  unfold effW
  rw [h, if_neg (by norm_num)]

theorem ctr_eff2 : effW 999 (9/16) = 561 := by
  have h : pyInt (((999 : ℤ) : ℚ) * (9/16)) = 561 :=
    pyInt_eval (by norm_num) (by norm_num) (by norm_num)
  unfold effW
  rw [h, if_neg (by norm_num)]

theorem ctr_eff3 : effW 999 (5/8) = 624 := by
  have h : pyInt (((999 : ℤ) : ℚ) * (5/8)) = 624 :=
    pyInt_eval (by norm_num) (by norm_num) (by norm_num)
  unfold effW
  rw [h, if_neg (by norm_num)]

theorem ctr_n1 : nOf 920 999 (6/13) = 2 := by
  unfold nOf
  rw [ctr_eff1]
  exact ceil_eval (by norm_num) (by norm_num)

theorem ctr_n2 : nOf 920 999 (9/16) = 2 := by
  unfold nOf
  rw [ctr_eff2]
  exact ceil_eval (by norm_num) (by norm_num)

theorem ctr_n3 : nOf 920 999 (5/8) = 2 := by
  unfold nOf
  rw [ctr_eff3]
  exact ceil_eval (by norm_num) (by norm_num)

theorem ctr_avg1 : avgOf 920 999 (6/13) = 460 := by
  unfold avgOf
  rw [ctr_n1]
  norm_num

theorem ctr_avg2 : avgOf 920 999 (9/16) = 460 := by
  unfold avgOf
  rw [ctr_n2]
  norm_num

theorem ctr_avg3 : avgOf 920 999 (5/8) = 460 := by
  unfold avgOf
  rw [ctr_n3]
  norm_num

theorem ctr_u1 : uOf 920 999 (6/13) = 1 := by
  unfold uOf
  rw [ctr_avg1, ctr_eff1]
  norm_num

theorem ctr_u2 : uOf 920 999 (9/16) = 101 := by
  unfold uOf
  rw [ctr_avg2, ctr_eff2]
  norm_num

theorem ctr_u3 : uOf 920 999 (5/8) = 164 := by
  unfold uOf
  rw [ctr_avg3, ctr_eff3]
  norm_num

theorem ctr_sliceL0 : sliceL (Span.mk 9 0 929 999) 2 5 0 = 9 := by
  unfold sliceL
  norm_num [pyInt]

theorem ctr_sliceR0 : sliceR (Span.mk 9 0 929 999) 2 5 0 = 464 := by
  unfold sliceR
  norm_num [pyInt]

theorem ctr_sliceL1 : sliceL (Span.mk 9 0 929 999) 2 5 1 = 474 := by
  unfold sliceL
  norm_num [pyInt]

theorem ctr_sliceR1 : sliceR (Span.mk 9 0 929 999) 2 5 1 = 929 := by
  unfold sliceR
  norm_num [pyInt]

theorem ctr_slices : ratioSlices (Span.mk 9 0 929 999) 2 =
    [Span.mk 9 0 464 999, Span.mk 474 0 929 999] := by
  unfold ratioSlices evenSlices
  rw [show ((2 : ℤ)).toNat = 2 from rfl, show List.range 2 = [0, 1] from rfl]
  rw [List.filterMap_cons, List.filterMap_cons, List.filterMap_nil]
  dsimp only
  rw [ctr_sliceL0, ctr_sliceR0, ctr_sliceL1, ctr_sliceR1]
  norm_num

theorem ctr_fallback : ratioFallback (Span.mk 9 0 929 999) 450 =
    [Span.mk 9 0 464 999, Span.mk 474 0 929 999] := by
  have hQ1 : 300 ≤ avgOf ((Span.mk 9 0 929 999).x2 - (Span.mk 9 0 929 999).x1)
      ((Span.mk 9 0 929 999).y2 - (Span.mk 9 0 929 999).y1) (6/13) ∧
      avgOf ((Span.mk 9 0 929 999).x2 - (Span.mk 9 0 929 999).x1)
        ((Span.mk 9 0 929 999).y2 - (Span.mk 9 0 929 999).y1) (6/13) ≤
        ((450 : ℤ) : ℚ) + 50 := by
    show 300 ≤ avgOf 920 999 (6/13) ∧ avgOf 920 999 (6/13) ≤ ((450 : ℤ) : ℚ) + 50
    rw [ctr_avg1]
    norm_num
  have hn1 : nOf ((Span.mk 9 0 929 999).x2 - (Span.mk 9 0 929 999).x1)
      ((Span.mk 9 0 929 999).y2 - (Span.mk 9 0 929 999).y1) (6/13) = 2 := ctr_n1
  have hu2 : ¬ uOf ((Span.mk 9 0 929 999).x2 - (Span.mk 9 0 929 999).x1)
      ((Span.mk 9 0 929 999).y2 - (Span.mk 9 0 929 999).y1) (9/16) <
      uOf ((Span.mk 9 0 929 999).x2 - (Span.mk 9 0 929 999).x1)
        ((Span.mk 9 0 929 999).y2 - (Span.mk 9 0 929 999).y1) (6/13) := by
    show ¬ uOf 920 999 (9/16) < uOf 920 999 (6/13)
    rw [ctr_u1, ctr_u2]
    norm_num
  have hu3 : ¬ uOf ((Span.mk 9 0 929 999).x2 - (Span.mk 9 0 929 999).x1)
      ((Span.mk 9 0 929 999).y2 - (Span.mk 9 0 929 999).y1) (5/8) <
      uOf ((Span.mk 9 0 929 999).x2 - (Span.mk 9 0 929 999).x1)
        ((Span.mk 9 0 929 999).y2 - (Span.mk 9 0 929 999).y1) (6/13) := by
    show ¬ uOf 920 999 (5/8) < uOf 920 999 (6/13)
    rw [ctr_u1, ctr_u3]
    norm_num
  unfold ratioFallback ratios3
  rw [List.foldl_cons, scanStep_none_pos (Span.mk 9 0 929 999) 450 none (6/13) hQ1]
  rw [hn1, ctr_slices]
  rw [if_neg (by simp)]
  rw [List.foldl_cons, scanStep_some_nlt (Span.mk 9 0 929 999) 450 _ _ (9/16) hu2]
  rw [List.foldl_cons, scanStep_some_nlt (Span.mk 9 0 929 999) 450 _ _ (5/8) hu3]
  rw [List.foldl_nil]
  rfl

theorem ctr_splitWide : splitWide (Span.mk 9 0 929 999) ctrImg 450 =
    [Span.mk 9 0 464 999, Span.mk 474 0 929 999] := by
  unfold splitWide
  rw [if_neg (by decide), if_neg (by decide)]
  rw [ctr_abs]
  rw [if_neg (by decide)]
  exact ctr_fallback

theorem ctr_final : finalScreens ctrImg =
    [Span.mk 9 0 464 999, Span.mk 474 0 929 999] := by
  unfold finalScreens
  rw [ctr_detect]
  simp only [List.flatMap_cons, List.flatMap_nil, List.append_nil]
  rw [if_pos (by decide), ctr_splitWide]

/-- C1 counterexample: on the buffer `ctrImg`, detection returns the single
920-wide span `(9, 0, 929, 999)`, and the final output of the pipeline is its
two ratio-fallback slices of width 455 — each exceeding `max_width = 450` —
so the first output span neither obeys the 450 bound nor is an original
detected span that `split_wide_screen` returned unchanged. -/
theorem c1_counterexample :
    finalScreens ctrImg = [Span.mk 9 0 464 999, Span.mk 474 0 929 999] ∧
    detect ctrImg 300 = [Span.mk 9 0 929 999] ∧
    Span.mk 9 0 464 999 ∈ finalScreens ctrImg ∧
    ¬ ((Span.mk 9 0 464 999).x2 - (Span.mk 9 0 464 999).x1 ≤ 450) ∧
    Span.mk 9 0 464 999 ∉ detect ctrImg 300 := by
  refine ⟨ctr_final, ctr_detect, ?_, by decide, ?_⟩
  · rw [ctr_final]
    simp
  · rw [ctr_detect]
    decide

/-- The final output of the pipeline on a 5-wide zero-height buffer: the
whole image as one span. -/
theorem c1_w_final : finalScreens (Img.mk 0 5 fun _ _ => 0) = [Span.mk 0 0 4 (-1)] := by
  unfold finalScreens
  rw [detect_zero_height rfl]
  rw [show (((Img.mk 0 5 fun _ _ => (0 : ℚ)).w : ℤ) - 1) = 4 from rfl,
    show (((Img.mk 0 5 fun _ _ => (0 : ℚ)).h : ℤ) - 1) = -1 from rfl]
  simp only [List.flatMap_cons, List.flatMap_nil, List.append_nil]
  rw [if_neg (by decide)]

/-- Witness for the amended C1 bound at a concrete buffer. -/
theorem c1_witness :
    Span.mk 0 0 4 (-1) ∈ finalScreens (Img.mk 0 5 fun _ _ => 0) ∧
    ((Span.mk 0 0 4 (-1)).x2 - (Span.mk 0 0 4 (-1)).x1 ≤ 500 ∨
      (Span.mk 0 0 4 (-1) ∈ detect (Img.mk 0 5 fun _ _ => 0) 300 ∧
        splitWide (Span.mk 0 0 4 (-1)) (Img.mk 0 5 fun _ _ => 0) 450 =
          [Span.mk 0 0 4 (-1)])) := by
  have hmem : Span.mk 0 0 4 (-1) ∈ finalScreens (Img.mk 0 5 fun _ _ => 0) := by
    rw [c1_w_final]
    simp
  exact ⟨hmem, c1_max_width_amended (Img.mk 0 5 fun _ _ => 0) (Span.mk 0 0 4 (-1)) hmem⟩

/-- Witness for C2 at a concrete buffer landing in the degenerate whole-image
case. -/
theorem c2_witness :
    Span.mk 0 0 4 (-1) ∈ finalScreens (Img.mk 0 5 fun _ _ => 0) ∧
    (300 ≤ (Span.mk 0 0 4 (-1)).x2 - (Span.mk 0 0 4 (-1)).x1 ∨
      finalScreens (Img.mk 0 5 fun _ _ => 0) =
        [⟨0, 0, ((Img.mk 0 5 fun _ _ => (0 : ℚ)).w : ℤ) - 1,
          ((Img.mk 0 5 fun _ _ => (0 : ℚ)).h : ℤ) - 1⟩]) := by
  have hmem : Span.mk 0 0 4 (-1) ∈ finalScreens (Img.mk 0 5 fun _ _ => 0) := by
    rw [c1_w_final]
    simp
  exact ⟨hmem, c2_min_width (Img.mk 0 5 fun _ _ => 0) (Span.mk 0 0 4 (-1)) hmem⟩

end ExtractScreens
